import Mathlib

/-!
Verification model of the aztec-connect falafel `WorldState` service
(`src/falafel/src/world_state.ts`), shallowly embedded in Lean.

Buffers are byte lists; the four Merkle trees of the external
`WorldStateDb` are modelled (from the spec, §4.1 of the design document)
as staged/committed association lists from leaf index to leaf bytes;
external collaborators (proof decoding, note algorithms, the relational
`RollupDb`) are either parameters of the model (an `Env` of functions) or
modelled from the spec where noted.
-/

set_option autoImplicit false

namespace AztecWorldState

/-- A byte buffer (`Buffer` in the source), as a list of bytes. -/
abbrev Buffer := List Nat

/-- `toBigIntBE` from `@aztec/barretenberg/bigint_buffer`: big-endian
interpretation of a buffer as an unsigned integer. -/
def toBigIntBE (b : Buffer) : Nat :=
  b.foldl (fun acc byte => acc * 256 + byte) 0

/-- `toBufferBE(n, width)`: big-endian encoding of `n` into `width` bytes. -/
def toBufferBE (n : Nat) (width : Nat) : Buffer :=
  (List.range width).map (fun i => n / 256 ^ (width - 1 - i) % 256)

/-- `Buffer.alloc(size, fill)`: a buffer of `size` bytes, each `fill`.
In particular `Buffer.alloc(0, 32)` is the empty buffer. -/
def bufferAlloc (size fill : Nat) : Buffer := List.replicate size fill

/-- `Buffer.concat`: concatenation of a list of buffers. -/
def joinBufs (bs : List Buffer) : Buffer := bs.flatten

/-! ### The tree store

Modelled from the spec: the external `WorldStateDb` keeps four trees,
each with committed and staged leaf writes; reads see the committed
state overlaid with the staged writes; `commit` promotes staged writes,
`rollback` discards them; the size of a tree is the number of leaves
(one more than the highest occupied index). -/

/-- One key-sorted association list of leaves (committed or staged layer). -/
abbrev LeafList := List (Nat × Buffer)

/-- Insert a leaf, replacing an existing leaf at the same index. -/
def insertLeaf : LeafList → Nat → Buffer → LeafList
  | [], k, v => [(k, v)]
  | (j, w) :: rest, k, v =>
    if k < j then (k, v) :: (j, w) :: rest
    else if k = j then (k, v) :: rest
    else (j, w) :: insertLeaf rest k v

/-- Look up the leaf at an index (first match). -/
def lookupLeaf : LeafList → Nat → Option Buffer
  | [], _ => none
  | (j, w) :: rest, k => if j = k then some w else lookupLeaf rest k

/-- Overlay the staged layer onto the committed layer. -/
def mergeView : LeafList → LeafList → LeafList
  | [], c => c
  | (k, v) :: rest, c => mergeView rest (insertLeaf c k v)

/-- Number of leaves in a leaf list: one past the highest occupied index. -/
def leavesSize (l : LeafList) : Nat :=
  l.foldl (fun m kv => max m (kv.1 + 1)) 0

/-- One authenticated tree: committed leaves plus staged (uncommitted) writes. -/
structure Tree where
  committed : LeafList
  staged : LeafList
deriving DecidableEq, Repr

/-- The canonical visible content of a tree (committed plus staged). -/
def Tree.view (t : Tree) : LeafList := mergeView t.staged t.committed

/-- Read a leaf: staged writes shadow committed state. -/
def Tree.read (t : Tree) (k : Nat) : Option Buffer :=
  match lookupLeaf t.staged k with
  | some v => some v
  | none => lookupLeaf t.committed k

/-- Stage a leaf write. -/
def Tree.put (t : Tree) (k : Nat) (v : Buffer) : Tree :=
  { t with staged := insertLeaf t.staged k v }

/-- Promote staged writes to the committed layer. -/
def Tree.commit (t : Tree) : Tree := { committed := t.view, staged := [] }

/-- Discard staged writes. -/
def Tree.rollback (t : Tree) : Tree := { committed := t.committed, staged := [] }

/-- Current size of a tree (committed plus staged). -/
def Tree.size (t : Tree) : Nat := leavesSize t.view

/-- `RollupTreeId`: the tags of the four trees (DATA = 0, NULL = 1,
ROOT = 2, DEFI = 3 in the source). -/
inductive TreeTag | DATA | NULL | ROOT | DEFI
deriving DecidableEq, Repr

/-- The four trees of the world-state store. -/
structure Trees where
  dataTree : Tree
  nullTree : Tree
  rootTree : Tree
  defiTree : Tree
deriving DecidableEq, Repr

def Trees.get (t : Trees) : TreeTag → Tree
  | .DATA => t.dataTree
  | .NULL => t.nullTree
  | .ROOT => t.rootTree
  | .DEFI => t.defiTree

def Trees.set (t : Trees) : TreeTag → Tree → Trees
  | .DATA, x => { t with dataTree := x }
  | .NULL, x => { t with nullTree := x }
  | .ROOT, x => { t with rootTree := x }
  | .DEFI, x => { t with defiTree := x }

/-- `worldStateDb.put(tag, index, value)`. -/
def Trees.put (t : Trees) (tag : TreeTag) (k : Nat) (v : Buffer) : Trees :=
  t.set tag ((t.get tag).put k v)

/-- `worldStateDb.commit()`: commits all four trees atomically. -/
def Trees.commitAll (t : Trees) : Trees :=
  { dataTree := t.dataTree.commit, nullTree := t.nullTree.commit,
    rootTree := t.rootTree.commit, defiTree := t.defiTree.commit }

/-- `worldStateDb.rollback()`: discards staged writes on all four trees. -/
def Trees.rollbackAll (t : Trees) : Trees :=
  { dataTree := t.dataTree.rollback, nullTree := t.nullTree.rollback,
    rootTree := t.rootTree.rollback, defiTree := t.defiTree.rollback }

/-! ### Rollup proof data -/

/- Modelled from the spec: `ProofId` of `@aztec/barretenberg/client_proofs`;
`proofId ∈ {DEPOSIT, WITHDRAW, SEND, ACCOUNT, DEFI_DEPOSIT, DEFI_CLAIM, padding}`,
with padding the zeroed variant. -/
namespace ProofId

def PADDING : Nat := 0

def DEPOSIT : Nat := 1

def WITHDRAW : Nat := 2

def SEND : Nat := 3

def ACCOUNT : Nat := 4

def DEFI_DEPOSIT : Nat := 5

def DEFI_CLAIM : Nat := 6

end ProofId

/-- One inner proof of a rollup (`InnerProofData`): the fields the core reads. -/
structure InnerProofData where
  proofId : Nat
  txId : Buffer
  noteCommitment1 : Buffer
  noteCommitment2 : Buffer
  nullifier1 : Buffer
  nullifier2 : Buffer
deriving DecidableEq, Repr

/-- Modelled from the spec: `InnerProofData.isPadding()` marks the zeroed
padding entries (the padding `proofId` variant). -/
def InnerProofData.isPadding (p : InnerProofData) : Bool :=
  p.proofId == ProofId.PADDING

/-- A bridge identifier as the core consumes it: its buffer and bigint
serializations (external) and the two output-asset slots read by
asset-metrics accounting. -/
structure BridgeIdT where
  bufRep : Buffer
  bigIntRep : Nat
  outputAssetIdA : Nat
  outputAssetIdB : Nat
deriving DecidableEq, Repr

/-- The fields of `OffchainDefiDepositData` that `processDefiProofs`
destructures after the external parse. -/
structure OffchainDefiDepositData where
  bridgeId : BridgeIdT
  depositValue : Nat
  pState : Buffer
  pStateSecretEphPubKey : Buffer
  txFee : Nat
deriving DecidableEq, Repr

/-- `TreeClaimNote` constructed in `processDefiProofs`
(deposit value, bridge id, interaction nonce, fee, claim partial state,
input nullifier). -/
structure TreeClaimNote where
  value : Nat
  bridgeId : BridgeIdT
  defiInteractionNonce : Int
  fee : Nat
  pState : Buffer
  inputNullifier : Buffer
deriving DecidableEq, Repr

/-- `DefiInteractionNote`: one defi interaction result carried by a block. -/
structure DefiInteractionNote where
  bridgeId : BridgeIdT
  nonce : Nat
  totalInputValue : Nat
  totalOutputValueA : Int
  totalOutputValueB : Int
  result : Bool
deriving DecidableEq, Repr

/-- `RollupProofData.NUM_BRIDGE_CALLS_PER_BLOCK` (the `K` of the spec).
Modelled from the spec: the constant lives in the external
`@aztec/barretenberg/rollup_proof` package. -/
def NUM_BRIDGE_CALLS_PER_BLOCK : Nat := 32

/-- Decoded `RollupProofData`: the fields `world_state.ts` reads. -/
structure RollupProofData where
  rollupId : Nat
  rollupHash : Buffer
  rollupSize : Nat
  dataStartIndex : Nat
  newDataRoot : Buffer
  newNullRoot : Buffer
  newDataRootsRoot : Buffer
  newDefiRoot : Buffer
  bridgeIds : List Buffer
  assetIds : List Nat
  defiInteractionNotes : List Buffer
  innerProofData : List InnerProofData
deriving DecidableEq, Repr

/-- A block from the chain source. `rollupProofData` is the decoded form of
the raw bytes `rawRollupData` (the decoder `RollupProofData.fromBuffer` is
external and bit-exact, so the model carries both). -/
structure Block where
  txHash : Buffer
  created : Int
  rollupId : Nat
  rollupSize : Nat
  rawRollupData : Buffer
  rollupProofData : RollupProofData
  offchainTxData : List Buffer
  interactionResult : List DefiInteractionNote
  gasUsed : Nat
  gasPrice : Nat
deriving Repr

/-! ### Relational entities -/

/-- `TxDao` as built by `innerProofDataToTxDao`. -/
structure TxDao where
  id : Buffer
  proofData : Buffer
  offchainTxData : Buffer
  nullifier1 : Option Buffer
  nullifier2 : Option Buffer
  created : Int
  mined : Option Int
  txType : Nat
  excessGas : Nat
deriving DecidableEq, Repr

/-- `RollupProofDao` (primary key: the rollup hash). -/
structure RollupProofDao where
  id : Buffer
  txs : List TxDao
  rollupSize : Nat
  dataStartIndex : Nat
  proofData : Option Buffer
  created : Int
deriving DecidableEq, Repr

/-- `AssetMetricsDao`: cumulative per-asset metrics keyed by rollup and asset. -/
structure AssetMetricsDao where
  rollupId : Nat
  assetId : Nat
  contractBalance : Int
  totalDeposited : Int
  totalWithdrawn : Int
  totalDefiDeposited : Int
  totalDefiClaimed : Int
  totalFees : Int
deriving DecidableEq, Repr

instance : Inhabited AssetMetricsDao :=
  ⟨{ rollupId := 0, assetId := 0, contractBalance := 0, totalDeposited := 0,
     totalWithdrawn := 0, totalDefiDeposited := 0, totalDefiClaimed := 0, totalFees := 0 }⟩

/-- `RollupDao` (primary key: the rollup id). -/
structure RollupDao where
  id : Nat
  dataRoot : Buffer
  rollupProof : RollupProofDao
  ethTxHash : Buffer
  mined : Option Int
  created : Int
  interactionResult : Buffer
  gasPrice : Buffer
  gasUsed : Nat
  assetMetrics : List AssetMetricsDao
deriving DecidableEq, Repr

/-- `ClaimDao` as inserted by `processDefiProofs`; `claimed` and
`interactionResultRollupId` are the optional settlement info filled in later. -/
structure ClaimDao where
  id : Nat
  nullifier : Buffer
  bridgeId : Nat
  depositValue : Nat
  pState : Buffer
  pStateSecretEphPubKey : Buffer
  inputNullifier : Buffer
  interactionNonce : Int
  fee : Nat
  created : Int
  claimed : Option Int
  interactionResultRollupId : Option Nat
deriving DecidableEq, Repr

/-- `AccountDao` persisted by `syncStateFromInitFiles`. -/
structure AccountDao where
  aliasHash : Buffer
  accountPubKey : Buffer
  nonce : Nat
deriving DecidableEq, Repr

/-! ### The relational store

Modelled from the spec (§4.2): the `RollupDb` is external to
`world_state.ts`; it stores claims, standalone (pipeline-produced) rollup
proofs, rollup rows, accounts, and per-asset metrics rows, with the narrow
API used by the synchronizer. -/

structure RollupDbState where
  claims : List ClaimDao
  pendingProofs : List RollupProofDao
  rollups : List RollupDao
  accounts : List AccountDao
  metricsRows : List AssetMetricsDao
deriving DecidableEq, Repr

/-- Does a claim with this leaf index already exist? -/
def hasId (claims : List ClaimDao) (n : Nat) : Bool :=
  claims.any (fun c => c.id == n)

/-- Modelled from the spec: `add_claim(ClaimDao)` — an insert keyed by the
claim's leaf index; replaying the same insert is a no-op (§8, idempotent
replay via no-op inserts). -/
def addClaim (c : ClaimDao) (db : RollupDbState) : RollupDbState :=
  if hasId db.claims c.id then db else { db with claims := db.claims ++ [c] }

/-- Modelled from the spec: `confirm_claimed(nullifier, minedAt)` marks every
claim with that nullifier as claimed at `minedAt`. -/
def confirmClaimed (nullifier : Buffer) (minedAt : Int) (db : RollupDbState) : RollupDbState :=
  { db with claims := db.claims.map (fun c =>
      if c.nullifier = nullifier then { c with claimed := some minedAt } else c) }

/-- Modelled from the spec: `update_claims_with_result_rollup_id(nonce, rollupId)`
records the result rollup id on every claim with that interaction nonce. -/
def updateClaimsWithResultRollupId (nonce : Nat) (rid : Nat) (db : RollupDbState) : RollupDbState :=
  { db with claims := db.claims.map (fun c =>
      if c.interactionNonce = (nonce : Int) then { c with interactionResultRollupId := some rid } else c) }

/-- Modelled from the spec: `get_rollup_proof(hash, includeTxs)` finds a stored
rollup proof by rollup hash, whether standalone or inside a rollup row. -/
def getRollupProof (db : RollupDbState) (hash : Buffer) : Option RollupProofDao :=
  match db.pendingProofs.find? (fun p => p.id == hash) with
  | some p => some p
  | none => (db.rollups.find? (fun r => r.rollupProof.id == hash)).map (fun r => r.rollupProof)

/-- Modelled from the spec: `get_rollup(id)`. -/
def getRollup (db : RollupDbState) (id : Nat) : Option RollupDao :=
  db.rollups.find? (fun r => r.id == id)

/-- Modelled from the spec: the most recent stored metrics row for an asset
(`get_asset_metrics(assetId)`). -/
def getAssetMetricsRow (db : RollupDbState) (assetId : Nat) : Option AssetMetricsDao :=
  db.metricsRows.find? (fun r => r.assetId == assetId)

/-- Modelled from the spec: persist a batch of metrics rows, replacing any
row with the same (rollup id, asset id) key; newest rows sit in front. -/
def storeMetricsRows (rows : List AssetMetricsDao) (newRows : List AssetMetricsDao) : List AssetMetricsDao :=
  newRows ++ rows.filter (fun r =>
    !(newRows.any (fun n => n.rollupId == r.rollupId && n.assetId == r.assetId)))

/-- Modelled from the spec: `add_rollup(RollupDao)` adds or replaces the rollup
row with that id (the source comment: "Not a rollup we created. Add or
replace rollup.") and persists its metrics rows. -/
def addRollup (dao : RollupDao) (db : RollupDbState) : RollupDbState :=
  { db with rollups := dao :: db.rollups.filter (fun r => !(r.id == dao.id)),
            metricsRows := storeMetricsRows db.metricsRows dao.assetMetrics }

/-- Modelled from the spec: `add_accounts(list)`. -/
def addAccounts (daos : List AccountDao) (db : RollupDbState) : RollupDbState :=
  { db with accounts := db.accounts ++ daos }

/-! ### External collaborators

The world-state synchronizer calls several external services whose
behaviour the spec fixes only at the interface: proof and off-chain-data
codecs, the note-algorithms service, tx-type derivation, Merkle root
computation, and chain balance / rollup total queries. They are
parameters of the model. -/

structure Env where
  parseOffchainDefiDeposit : Buffer → OffchainDefiDepositData
  claimNoteCommitment : TreeClaimNote → Buffer
  claimNoteNullifier : Buffer → Buffer
  getTxType : InnerProofData → Nat
  serializeInner : InnerProofData → Buffer
  serializeDefiNote : DefiInteractionNote → Buffer
  serializeRollupDao : RollupDao → Buffer
  rootFn : TreeTag → LeafList → Buffer
  getRollupBalance : Nat → Int
  getTotalDeposited : RollupProofData → Nat → Int
  getTotalWithdrawn : RollupProofData → Nat → Int
  getTotalDefiDeposit : RollupProofData → Nat → Int
  getTotalFees : RollupProofData → Nat → Int

/-- `worldStateDb.getRoot(tag)`: the authenticated root of the visible
(committed plus staged) content of one tree. -/
def getRootT (env : Env) (t : Trees) (tag : TreeTag) : Buffer :=
  env.rootFn tag (t.get tag).view

/-! ### apply-rollup-to-trees (`addRollupToWorldState`) -/

/-- The first nullifier write of one inner proof (skipped when the
big-endian value is zero, i.e. falsy). -/
def putNullifier1 (p : InnerProofData) (t : Trees) : Trees :=
  if toBigIntBE p.nullifier1 ≠ 0 then t.put .NULL (toBigIntBE p.nullifier1) (toBufferBE 1 32) else t

/-- The second nullifier write of one inner proof. -/
def putNullifier2 (p : InnerProofData) (t : Trees) : Trees :=
  if toBigIntBE p.nullifier2 ≠ 0 then t.put .NULL (toBigIntBE p.nullifier2) (toBufferBE 1 32) else t

/-- The nullifier writes of one inner proof: only for non-padding proofs,
and only when the big-endian value of the nullifier is nonzero. -/
def putNullifiers (p : InnerProofData) (t : Trees) : Trees :=
  if p.isPadding then t else putNullifier2 p (putNullifier1 p t)

/-- The per-inner-proof loop of `addRollupToWorldState`: note commitments
are written for every inner proof; nullifiers only for non-padding proofs
with a nonzero nullifier. -/
def applyInnerLoop (dsi : Nat) : List InnerProofData → Nat → Trees → Trees
  | [], _, t => t
  | p :: rest, i, t =>
    applyInnerLoop dsi rest (i + 1)
      (putNullifiers p ((t.put .DATA (dsi + i * 2) p.noteCommitment1).put .DATA
        (dsi + i * 2 + 1) p.noteCommitment2))

/-- The defi-interaction-note loop of `addRollupToWorldState`: a note is
skipped when it equals `Buffer.alloc(0, 32)` (the empty buffer), otherwise
written at `interactionNoteStartIndex + i`. -/
def applyDefiLoop (startIdx : Nat) : List Buffer → Nat → Trees → Trees
  | [], _, t => t
  | note :: rest, i, t =>
    applyDefiLoop startIdx rest (i + 1)
      (if note = bufferAlloc 0 32 then t else t.put .DEFI (startIdx + i) note)

/-- `addRollupToWorldState(rollup)`: early-return if the DATA tree already
holds the leaves, else write note commitments and nullifiers, the new data
root into the ROOT tree, the defi interaction notes, and commit. -/
def addRollupToWorldState (env : Env) (rollup : RollupProofData) (trees : Trees) : Trees :=
  if (trees.get .DATA).size > rollup.dataStartIndex then trees
  else
    Trees.commitAll
      (applyDefiLoop (rollup.rollupId * NUM_BRIDGE_CALLS_PER_BLOCK)
        rollup.defiInteractionNotes 0
        ((applyInnerLoop rollup.dataStartIndex rollup.innerProofData 0 trees).put .ROOT
          (rollup.rollupId + 1)
          (getRootT env (applyInnerLoop rollup.dataStartIndex rollup.innerProofData 0 trees)
            .DATA)))

/-- The four-way root comparison of `updateDbs`. -/
def rootsMatch (env : Env) (rp : RollupProofData) (t : Trees) : Prop :=
  rp.newDataRoot = getRootT env t .DATA ∧
  rp.newNullRoot = getRootT env t .NULL ∧
  rp.newDataRootsRoot = getRootT env t .ROOT ∧
  rp.newDefiRoot = getRootT env t .DEFI

instance (env : Env) (rp : RollupProofData) (t : Trees) : Decidable (rootsMatch env rp t) := by
  unfold rootsMatch; infer_instance

/-- The tree phase of `updateDbs`: commit if all four roots match the
block's new roots, else rollback and apply the rollup to the trees. -/
def updateTrees (env : Env) (rp : RollupProofData) (t : Trees) : Trees :=
  if rootsMatch env rp t then t.commitAll
  else addRollupToWorldState env rp t.rollbackAll

/-! ### process-defi-proofs -/

/-- `bridgeIds.findIndex(bridge => bridge.equals(target))` as an index option. -/
def findIdxB : List Buffer → Buffer → Option Nat
  | [], _ => none
  | b :: rest, target =>
    if b = target then some 0 else (findIdxB rest target).map (fun j => j + 1)

/-- JavaScript `findIndex`: the index of the first match, or `-1`. -/
def findIndexOf (l : List Buffer) (target : Buffer) : Int :=
  match findIdxB l target with
  | some j => (j : Int)
  | none => -1

/-- The `ClaimDao` built by the `DEFI_DEPOSIT` case of `processDefiProofs`
for the inner proof `p` at inner position `i` with off-chain index `oc`,
inserted at leaf index `dataStartIndex + 2i` with
`fee = txFee - (txFee >> 1)` and
`interactionNonce = findIndex(bridgeIds, bridgeId) + rollupId * K`. -/
def mkClaimDao (env : Env) (rollup : RollupProofData) (offchain : List Buffer)
    (p : InnerProofData) (i oc : Nat) (now : Int) : ClaimDao :=
  let d := env.parseOffchainDefiDeposit (offchain.getD oc [])
  let fee := d.txFee - (d.txFee >>> 1)
  let index := rollup.dataStartIndex + i * 2
  let interactionNonce : Int :=
    findIndexOf rollup.bridgeIds d.bridgeId.bufRep +
      (rollup.rollupId * NUM_BRIDGE_CALLS_PER_BLOCK : Nat)
  let inputNullifier := p.nullifier1
  let note : TreeClaimNote :=
    { value := d.depositValue, bridgeId := d.bridgeId, defiInteractionNonce := interactionNonce,
      fee := fee, pState := d.pState, inputNullifier := inputNullifier }
  let nullifier := env.claimNoteNullifier (env.claimNoteCommitment note)
  { id := index, nullifier := nullifier, bridgeId := d.bridgeId.bigIntRep,
    depositValue := d.depositValue, pState := d.pState,
    pStateSecretEphPubKey := d.pStateSecretEphPubKey, inputNullifier := inputNullifier,
    interactionNonce := interactionNonce, fee := fee, created := now,
    claimed := none, interactionResultRollupId := none }

/-- The nullifier a `DEFI_DEPOSIT` claim at position `i` / off-chain index
`oc` would carry (independent of the insertion clock). -/
def claimNullifierOf (env : Env) (rollup : RollupProofData) (offchain : List Buffer)
    (p : InnerProofData) (i oc : Nat) : Buffer :=
  (mkClaimDao env rollup offchain p i oc 0).nullifier

/-- The switch body of `processDefiProofs` for one non-padding inner proof:
`DEFI_DEPOSIT` inserts a claim, `DEFI_CLAIM` confirms one, every other
proof type leaves the store untouched. -/
def processInnerStep (env : Env) (rollup : RollupProofData) (offchain : List Buffer)
    (created now : Int) (p : InnerProofData) (i oc : Nat) (db : RollupDbState) : RollupDbState :=
  if p.proofId = ProofId.DEFI_DEPOSIT then
    addClaim (mkClaimDao env rollup offchain p i oc now) db
  else if p.proofId = ProofId.DEFI_CLAIM then
    confirmClaimed p.nullifier1 created db
  else db

/-- The inner-proof walk of `processDefiProofs`: padding entries are skipped
entirely; the off-chain index `oc` increments once per non-padding proof. -/
def processInner (env : Env) (rollup : RollupProofData) (offchain : List Buffer)
    (created now : Int) : List InnerProofData → Nat → Nat → RollupDbState → RollupDbState
  | [], _, _, db => db
  | p :: rest, i, oc, db =>
    if p.isPadding then processInner env rollup offchain created now rest (i + 1) oc db
    else
      processInner env rollup offchain created now rest (i + 1) (oc + 1)
        (processInnerStep env rollup offchain created now p i oc db)

/-- The interaction-result walk of `processDefiProofs`. -/
def interactionLoop (rollupId : Nat) : List DefiInteractionNote → RollupDbState → RollupDbState
  | [], db => db
  | note :: rest, db =>
    interactionLoop rollupId rest (updateClaimsWithResultRollupId note.nonce rollupId db)

/-- `processDefiProofs(rollup, offchainTxData, block)` on the relational store. -/
def processDefiProofsDb (env : Env) (rollup : RollupProofData) (offchain : List Buffer)
    (created now : Int) (results : List DefiInteractionNote) (db : RollupDbState) : RollupDbState :=
  interactionLoop rollup.rollupId results
    (processInner env rollup offchain created now rollup.innerProofData 0 0 db)

/-! ### confirm-or-add-rollup -/

/-- `innerProofDataToTxDao`: nullifiers are kept only when nonzero,
`mined` is set to the block's creation time, `excessGas` to zero. -/
def innerProofDataToTxDao (env : Env) (tx : InnerProofData) (offchainTx : Buffer)
    (created : Int) (txType : Nat) : TxDao :=
  { id := tx.txId, proofData := env.serializeInner tx, offchainTxData := offchainTx,
    nullifier1 := if toBigIntBE tx.nullifier1 ≠ 0 then some tx.nullifier1 else none,
    nullifier2 := if toBigIntBE tx.nullifier2 ≠ 0 then some tx.nullifier2 else none,
    created := created, mined := some created, txType := txType, excessGas := 0 }

/-- JavaScript `Array.prototype.map((x, i) => ...)`. -/
def mapWithIndex {α β : Type} (f : Nat → α → β) : Nat → List α → List β
  | _, [] => []
  | i, a :: rest => f i a :: mapWithIndex f (i + 1) rest

/-- `getAssetMetrics(rollup, interactionResults)`: for each asset id other
than the `1 << 30` sentinel, load the previous cumulative row (or start
fresh) and accumulate this rollup's totals onto it. -/
def getAssetMetricsF (env : Env) (rollup : RollupProofData)
    (interactionResults : List DefiInteractionNote) (db : RollupDbState) : List AssetMetricsDao :=
  (rollup.assetIds.filter (fun id => id ≠ 1 <<< 30)).foldl (fun acc assetId =>
    let previous := getAssetMetricsRow db assetId
    let base := previous.getD default
    acc ++ [{ base with
      rollupId := rollup.rollupId, assetId := assetId,
      contractBalance := env.getRollupBalance assetId,
      totalDeposited := base.totalDeposited + env.getTotalDeposited rollup assetId,
      totalWithdrawn := base.totalWithdrawn + env.getTotalWithdrawn rollup assetId,
      totalDefiDeposited := base.totalDefiDeposited + env.getTotalDefiDeposit rollup assetId,
      totalDefiClaimed := base.totalDefiClaimed + interactionResults.foldl (fun a v =>
        a + (if v.bridgeId.outputAssetIdA = assetId then v.totalOutputValueA else 0) +
            (if v.bridgeId.outputAssetIdB = assetId then v.totalOutputValueB else 0)) 0,
      totalFees := base.totalFees + env.getTotalFees rollup assetId }]) []

/-- Modelled from the spec: marking one settled tx as mined. -/
def settleTx (minedAt : Int) (txIds : List Buffer) (tx : TxDao) : TxDao :=
  if txIds.any (fun t => t == tx.id) then { tx with mined := some minedAt } else tx

/-- Modelled from the spec: the rollup-row update `confirm_mined` performs on
the row with the settled id. -/
def settleRollupRow (env : Env) (id gasUsed gasPrice : Nat) (minedAt : Int)
    (ethTxHash : Buffer) (interactionResult : List DefiInteractionNote)
    (txIds : List Buffer) (assetMetrics : List AssetMetricsDao) (r : RollupDao) : RollupDao :=
  if r.id = id then
    { r with
      mined := some minedAt,
      gasUsed := gasUsed,
      gasPrice := toBufferBE gasPrice 32,
      ethTxHash := ethTxHash,
      interactionResult := joinBufs (interactionResult.map env.serializeDefiNote),
      assetMetrics := assetMetrics,
      rollupProof := { r.rollupProof with
        txs := r.rollupProof.txs.map (settleTx minedAt txIds) } }
  else r

/-- Modelled from the spec: `confirm_mined(id, gasUsed, gasPrice, minedAt,
ethTxHash, interactionResults, txIds, assetMetrics)` settles the rollup row
with that id (gas data, mined time, interaction results, metrics) and marks
the listed txs mined; the metrics rows are persisted. -/
def confirmMined (env : Env) (db : RollupDbState) (id gasUsed : Nat) (gasPrice : Nat)
    (minedAt : Int) (ethTxHash : Buffer) (interactionResult : List DefiInteractionNote)
    (txIds : List Buffer) (assetMetrics : List AssetMetricsDao) : RollupDbState :=
  { db with
    rollups := db.rollups.map (settleRollupRow env id gasUsed gasPrice minedAt ethTxHash
      interactionResult txIds assetMetrics),
    metricsRows := storeMetricsRows db.metricsRows assetMetrics }

/-- The `RollupProofDao` and enclosing `RollupDao` built by the not-found
branch of `confirmOrAddRollupToDb`: the txs are rebuilt from exactly the
non-padding inner proofs, the k-th one paired with `offchainTxData[k]`. -/
def mkRollupDao (env : Env) (rollup : RollupProofData) (offchain : List Buffer)
    (block : Block) (assetMetrics : List AssetMetricsDao) : RollupDao :=
  let txs := mapWithIndex (fun i p =>
      innerProofDataToTxDao env p (offchain.getD i []) block.created (env.getTxType p)) 0
    (rollup.innerProofData.filter (fun tx => !tx.isPadding))
  let rollupProofDao : RollupProofDao :=
    { id := rollup.rollupHash, txs := txs, rollupSize := rollup.rollupSize,
      dataStartIndex := rollup.dataStartIndex, proofData := some block.rawRollupData,
      created := block.created }
  { id := rollup.rollupId, dataRoot := rollup.newDataRoot, rollupProof := rollupProofDao,
    ethTxHash := block.txHash, mined := some block.created, created := block.created,
    interactionResult := joinBufs (block.interactionResult.map env.serializeDefiNote),
    gasPrice := toBufferBE block.gasPrice 32, gasUsed := block.gasUsed,
    assetMetrics := assetMetrics }

/-- The relational effect of `confirmOrAddRollupToDb`: look the proof up by
rollup hash; if found, confirm it mined with the block's gas data and asset
metrics; if not, add a rebuilt rollup row. -/
def confirmOrAddDb (env : Env) (rollup : RollupProofData) (offchain : List Buffer)
    (block : Block) (db : RollupDbState) : RollupDbState :=
  let assetMetrics := getAssetMetricsF env rollup block.interactionResult db
  match getRollupProof db rollup.rollupHash with
  | some rollupProof =>
    confirmMined env db rollup.rollupId block.gasUsed block.gasPrice block.created
      block.txHash block.interactionResult (rollupProof.txs.map (fun tx => tx.id)) assetMetrics
  | none => addRollup (mkRollupDao env rollup offchain block assetMetrics) db

/-- One step of the settlement-duration loop: padding proofs are skipped,
as are inner proofs whose tx is missing from the stored proof. -/
def durStep (created : Int) (txs : List TxDao) (acc : List Int)
    (inner : InnerProofData) : List Int :=
  if inner.isPadding then acc
  else
    match txs.find? (fun tx => tx.id == inner.txId) with
    | none => acc
    | some tx => acc ++ [created - tx.created]

/-- The settlement durations `block.created - tx.created` emitted in the
found branch of `confirmOrAddRollupToDb`, one per non-padding inner proof
whose tx is present in the stored proof (missing txs are skipped). -/
def settlementDurations (rollup : RollupProofData) (block : Block)
    (db : RollupDbState) : List Int :=
  match getRollupProof db rollup.rollupHash with
  | some rollupProof =>
    rollup.innerProofData.foldl (durStep block.created rollupProof.txs) []
  | none => []

/-! ### update-dbs -/

/-- The full synchronizer state the block handler mutates. -/
structure WS where
  trees : Trees
  db : RollupDbState
  metricsEvents : List Int
  blockBufferCache : List Buffer
deriving DecidableEq, Repr

/-- `updateDbs(block)`: the reconciliation core. Decode the rollup proof
data, commit or rollback-and-apply the trees, process defi proofs, confirm
or add the rollup row, and append the settled block to the cache. `now` is
the wall clock used for `new Date()` when a claim row is created. -/
def updateDbs (env : Env) (block : Block) (now : Int) (s : WS) : WS :=
  let rp := block.rollupProofData
  let trees1 := updateTrees env rp s.trees
  let db1 := processDefiProofsDb env rp block.offchainTxData block.created now
    block.interactionResult s.db
  let durations := settlementDurations rp block db1
  let db2 := confirmOrAddDb env rp block.offchainTxData block db1
  let cache1 :=
    match getRollup db2 rp.rollupId with
    | some dao => s.blockBufferCache ++ [env.serializeRollupDao dao]
    | none => s.blockBufferCache
  { trees := trees1, db := db2, metricsEvents := s.metricsEvents ++ durations,
    blockBufferCache := cache1 }

/-! ### init-from-files (`syncStateFromInitFiles`) -/

/-- The alias record of one initial account (`a.alias` in the source). -/
structure InitAccountAlias where
  aliasHash : Buffer
  address : Buffer
  nonce : Nat
deriving DecidableEq, Repr

/-- One account read from the initialisation file. -/
structure InitAccount where
  aliasInfo : InitAccountAlias
deriving DecidableEq, Repr

/-- The three fatal root mismatches of `syncStateFromInitFiles` (it throws
an `Error`, aborting startup). -/
inductive InitError | dataRootMismatch | rootsRootMismatch | nullRootMismatch
deriving DecidableEq, Repr

/-- Modelled from the spec: the `InitHelpers` of
`@aztec/barretenberg/environment` as consumed by `syncStateFromInitFiles`:
a per-chain optional account data file, the account roster read from it,
the expected initial roots `(initDataRoot, initNullRoot, initRootsRoot)`,
and the two tree-population routines (which mutate the tree store and
return the computed roots). -/
structure InitEnv where
  chainId : Nat
  getAccountDataFile : Nat → Option Nat
  readAccountTreeData : Nat → List InitAccount
  getInitRoots : Nat → Buffer × Buffer × Buffer
  populateDataAndRootsTrees : List InitAccount → Trees → Trees × Buffer × Buffer
  populateNullTree : List InitAccount → Trees → Trees × Buffer

/-- The body of `syncStateFromInitFiles` once an account data file exists:
return untouched if no accounts or an empty expected root; otherwise
populate the DATA, ROOT and NULL trees, abort fatally if any computed root
differs from the expected one, and persist the derived `AccountDao` rows on
success. -/
def syncInitBody (ienv : InitEnv) (trees : Trees) (db : RollupDbState) (file : Nat) :
    Except InitError (Trees × RollupDbState) :=
  if ienv.readAccountTreeData file = [] then .ok (trees, db)
    else if (ienv.getInitRoots ienv.chainId).1 = [] ∨
        (ienv.getInitRoots ienv.chainId).2.1 = [] ∨
        (ienv.getInitRoots ienv.chainId).2.2 = [] then .ok (trees, db)
    else if (ienv.getInitRoots ienv.chainId).1 ≠
        (ienv.populateDataAndRootsTrees (ienv.readAccountTreeData file) trees).2.1 then
      .error .dataRootMismatch
    else if (ienv.getInitRoots ienv.chainId).2.2 ≠
        (ienv.populateDataAndRootsTrees (ienv.readAccountTreeData file) trees).2.2 then
      .error .rootsRootMismatch
    else if (ienv.getInitRoots ienv.chainId).2.1 ≠
        (ienv.populateNullTree (ienv.readAccountTreeData file)
          (ienv.populateDataAndRootsTrees (ienv.readAccountTreeData file) trees).1).2 then
      .error .nullRootMismatch
    else
      .ok ((ienv.populateNullTree (ienv.readAccountTreeData file)
          (ienv.populateDataAndRootsTrees (ienv.readAccountTreeData file) trees).1).1,
        addAccounts ((ienv.readAccountTreeData file).map (fun a =>
          ({ aliasHash := a.aliasInfo.aliasHash, accountPubKey := a.aliasInfo.address,
             nonce := a.aliasInfo.nonce } : AccountDao))) db)

/-- `syncStateFromInitFiles`: return untouched when there is no account data
file for the chain; otherwise run the body above. -/
def syncStateFromInitFiles (ienv : InitEnv) (trees : Trees) (db : RollupDbState) :
    Except InitError (Trees × RollupDbState) :=
  match ienv.getAccountDataFile ienv.chainId with
  | none => .ok (trees, db)
  | some file => syncInitBody ienv trees db file

/-! ### Pipeline reads (`getNextPublishTime`, `getTxPoolProfile`)

The pipeline field is declared `private pipeline!: RollupPipeline` and is
undefined until `start()` completes; it is modelled as an `Option`. -/

structure RollupTimeout where
  timeoutTime : Int
deriving DecidableEq, Repr

/-- `RollupTimeouts`: base timeout plus a per-bridge timeout map. -/
structure RollupTimeouts where
  baseTimeout : Option RollupTimeout
  bridgeTimeouts : List (Nat × RollupTimeout)
deriving DecidableEq, Repr

structure TxPoolProfile where
  pendingTxCount : Nat
deriving DecidableEq, Repr

/-- The two pure reads the pipeline serves. -/
structure RollupPipeline where
  nextPublishTime : RollupTimeouts
  txPoolProfile : TxPoolProfile

/-- `getNextPublishTime()`: guarded by a truthiness check on the pipeline;
before any pipeline exists it returns the default timeouts
(`baseTimeout: undefined`, empty `bridgeTimeouts` map). -/
def getNextPublishTime (pipeline : Option RollupPipeline) : RollupTimeouts :=
  match pipeline with
  | some p => p.nextPublishTime
  | none => { baseTimeout := none, bridgeTimeouts := [] }

/-- `getTxPoolProfile()`: dereferences the pipeline unconditionally; with no
pipeline the call fails (`none` models the TypeError on `undefined`). -/
def getTxPoolProfile (pipeline : Option RollupPipeline) : Option TxPoolProfile :=
  match pipeline with
  | some p => some p.txPoolProfile
  | none => none

/-- Read a leaf of one of the four trees (committed plus staged). -/
def readT (t : Trees) (tag : TreeTag) (k : Nat) : Option Buffer :=
  (t.get tag).read k

/-! ### Observation helpers for the claim store -/

/-- The off-chain index reached at inner-proof position `k`: the number of
non-padding proofs strictly before it. -/
def ocAt (l : List InnerProofData) (k : Nat) : Nat :=
  ((l.take k).filter (fun p => !p.isPadding)).length

/-- How many stored claims carry the leaf index `n`. -/
def countId (claims : List ClaimDao) (n : Nat) : Nat :=
  (claims.filter (fun c => c.id == n)).length

/-- A claim with its mutable settlement fields blanked: everything
`confirm_claimed` and `update_claims_with_result_rollup_id` never touch. -/
def claimCore (c : ClaimDao) : ClaimDao :=
  { c with claimed := none, interactionResultRollupId := none }

/-- Exactly one stored claim carries leaf index `n`, and it agrees with
`target` on every non-settlement field. -/
def ClaimSpec (claims : List ClaimDao) (n : Nat) (target : ClaimDao) : Prop :=
  countId claims n = 1 ∧ ∀ c ∈ claims, c.id = n → claimCore c = claimCore target

/-- Every stored claim with this nullifier is already marked claimed at `t`. -/
def allClaimed (claims : List ClaimDao) (X : Buffer) (t : Int) : Prop :=
  ∀ c ∈ claims, c.nullifier = X → c.claimed = some t

/-- Every stored claim with this interaction nonce already carries the
result rollup id. -/
def allResult (claims : List ClaimDao) (nonce : Nat) (rid : Nat) : Prop :=
  ∀ c ∈ claims, c.interactionNonce = (nonce : Int) → c.interactionResultRollupId = some rid

/-! ### Shared concrete sample data (used by witnesses and counterexamples) -/

def emptyTree : Tree := { committed := [], staged := [] }

def emptyTrees : Trees :=
  { dataTree := emptyTree, nullTree := emptyTree, rootTree := emptyTree, defiTree := emptyTree }

def emptyDb : RollupDbState :=
  { claims := [], pendingProofs := [], rollups := [], accounts := [], metricsRows := [] }

def wsW : WS :=
  { trees := emptyTrees, db := emptyDb, metricsEvents := [], blockBufferCache := [] }

def bridgeW : BridgeIdT :=
  { bufRep := [7], bigIntRep := 7, outputAssetIdA := 0, outputAssetIdB := 1 }

def offdW : OffchainDefiDepositData :=
  { bridgeId := bridgeW, depositValue := 100, pState := [1],
    pStateSecretEphPubKey := [2], txFee := 10 }

def envW : Env :=
  { parseOffchainDefiDeposit := fun _ => offdW,
    claimNoteCommitment := fun _ => [3],
    claimNoteNullifier := fun _ => [4],
    getTxType := fun _ => 1,
    serializeInner := fun _ => [],
    serializeDefiNote := fun _ => [5],
    serializeRollupDao := fun _ => [6],
    rootFn := fun _ _ => [],
    getRollupBalance := fun _ => 0,
    getTotalDeposited := fun _ _ => 5,
    getTotalWithdrawn := fun _ _ => 0,
    getTotalDefiDeposit := fun _ _ => 0,
    getTotalFees := fun _ _ => 5 }

def padProofW : InnerProofData :=
  { proofId := ProofId.PADDING, txId := List.replicate 32 0,
    noteCommitment1 := List.replicate 32 0, noteCommitment2 := List.replicate 32 0,
    nullifier1 := [], nullifier2 := [] }

def depositProofW : InnerProofData :=
  { proofId := ProofId.DEFI_DEPOSIT, txId := [9], noteCommitment1 := [1],
    noteCommitment2 := [2], nullifier1 := [8], nullifier2 := [] }

def mkRpW (innerProofs : List InnerProofData) (notes : List Buffer) (roots : Buffer)
    (assetIds : List Nat) : RollupProofData :=
  { rollupId := 1, rollupHash := [10], rollupSize := 2, dataStartIndex := 0,
    newDataRoot := roots, newNullRoot := roots, newDataRootsRoot := roots,
    newDefiRoot := roots, bridgeIds := [[7]], assetIds := assetIds,
    defiInteractionNotes := notes, innerProofData := innerProofs }

def mkBlockW (rp : RollupProofData) : Block :=
  { txHash := [11], created := 1000, rollupId := rp.rollupId, rollupSize := rp.rollupSize,
    rawRollupData := [12], rollupProofData := rp, offchainTxData := [[13]],
    interactionResult := [], gasUsed := 21, gasPrice := 3 }

/-- Sample rollup with a padding proof followed by a defi deposit. -/
def rpW5 : RollupProofData := mkRpW [padProofW, depositProofW] [] [3] []

/-- The claim `processDefiProofs` inserts for `rpW5`: inner position 1,
off-chain index 0, clock 7. -/
def claimW5 : ClaimDao := mkClaimDao envW rpW5 [[13]] depositProofW 1 0 7

/-- Sample rollup whose deposit's bridge id is missing from `bridgeIds`. -/
def rpW10 : RollupProofData :=
  { mkRpW [depositProofW] [] [3] [] with bridgeIds := [[9]] }

/-- The claim inserted for `rpW10` despite the failed bridge lookup. -/
def claimW10 : ClaimDao := mkClaimDao envW rpW10 [[13]] depositProofW 0 0 7

/-- Did a fallible computation succeed? -/
def isOkE {ε α : Type} : Except ε α → Bool
  | .ok _ => true
  | .error _ => false

/-- A stored tx matching `depositProofW.txId`, created at time 900. -/
def txW : TxDao :=
  { id := [9], proofData := [], offchainTxData := [13], nullifier1 := some [8],
    nullifier2 := none, created := 900, mined := none, txType := 1, excessGas := 0 }

/-- A pipeline-produced rollup proof whose hash matches `rpW5`. -/
def proofW : RollupProofDao :=
  { id := [10], txs := [txW], rollupSize := 2, dataStartIndex := 0,
    proofData := some [12], created := 900 }

def dbW7 : RollupDbState := { emptyDb with pendingProofs := [proofW] }

def accW : InitAccount := { aliasInfo := { aliasHash := [1], address := [2], nonce := 3 } }

/-- An init environment whose populated roots match the expected roots. -/
def ienvOk : InitEnv :=
  { chainId := 1, getAccountDataFile := fun _ => some 0,
    readAccountTreeData := fun _ => [accW],
    getInitRoots := fun _ => ([4], [5], [6]),
    populateDataAndRootsTrees := fun _ t => (t, [4], [6]),
    populateNullTree := fun _ t => (t, [5]) }

/-- The same init environment with a wrong computed data root. -/
def ienvBad : InitEnv :=
  { ienvOk with populateDataAndRootsTrees := fun _ t => (t, [9], [6]) }

/-! ## Lemmas about the leaf lists -/

theorem lookup_insert_self (l : LeafList) (k : Nat) (v : Buffer) :
    lookupLeaf (insertLeaf l k v) k = some v := by
  induction l with
  | nil => simp [insertLeaf, lookupLeaf]
  | cons kv rest ih =>
    obtain ⟨j, w⟩ := kv
    by_cases h1 : k < j
    · simp only [insertLeaf]
      rw [if_pos h1]
      simp [lookupLeaf]
    · by_cases h2 : k = j
      · simp only [insertLeaf]
        rw [if_neg h1, if_pos h2]
        simp [lookupLeaf]
      · simp only [insertLeaf]
        rw [if_neg h1, if_neg h2]
        simp only [lookupLeaf]
        rw [if_neg (fun h => h2 h.symm)]
        exact ih

theorem lookup_insert_ne (l : LeafList) (k n : Nat) (v : Buffer) (hne : n ≠ k) :
    lookupLeaf (insertLeaf l k v) n = lookupLeaf l n := by
  induction l with
  | nil =>
    simp only [insertLeaf, lookupLeaf]
    rw [if_neg (fun h => hne h.symm)]
  | cons kv rest ih =>
    obtain ⟨j, w⟩ := kv
    by_cases h1 : k < j
    · simp only [insertLeaf]
      rw [if_pos h1]
      simp only [lookupLeaf]
      rw [if_neg (fun h => hne h.symm)]
    · by_cases h2 : k = j
      · simp only [insertLeaf]
        rw [if_neg h1, if_pos h2]
        simp only [lookupLeaf]
        rw [if_neg (fun h => hne h.symm), if_neg (fun h => hne (h2 ▸ h).symm)]
      · simp only [insertLeaf]
        rw [if_neg h1, if_neg h2]
        simp only [lookupLeaf]
        by_cases h3 : j = n
        · rw [if_pos h3, if_pos h3]
        · rw [if_neg h3, if_neg h3]
          exact ih

theorem mem_insertLeaf {l : LeafList} {k : Nat} {v : Buffer} {x : Nat × Buffer}
    (hx : x ∈ insertLeaf l k v) : x = (k, v) ∨ x ∈ l := by
  induction l with
  | nil => simpa [insertLeaf] using hx
  | cons kv rest ih =>
    obtain ⟨j, w⟩ := kv
    by_cases h1 : k < j
    · simp only [insertLeaf] at hx
      rw [if_pos h1] at hx
      rcases List.mem_cons.mp hx with h | h
      · exact Or.inl h
      · exact Or.inr h
    · by_cases h2 : k = j
      · simp only [insertLeaf] at hx
        rw [if_neg h1, if_pos h2] at hx
        rcases List.mem_cons.mp hx with h | h
        · exact Or.inl h
        · exact Or.inr (List.mem_cons_of_mem _ h)
      · simp only [insertLeaf] at hx
        rw [if_neg h1, if_neg h2] at hx
        rcases List.mem_cons.mp hx with h | h
        · exact Or.inr (h ▸ List.mem_cons_self _ _)
        · rcases ih h with h' | h'
          · exact Or.inl h'
          · exact Or.inr (List.mem_cons_of_mem _ h')

theorem mem_insertLeaf_of_mem {l : LeafList} {k : Nat} {v : Buffer} {x : Nat × Buffer}
    (hx : x ∈ l) (hne : x.1 ≠ k) : x ∈ insertLeaf l k v := by
  induction l with
  | nil => cases hx
  | cons kv rest ih =>
    obtain ⟨j, w⟩ := kv
    by_cases h1 : k < j
    · simp only [insertLeaf]
      rw [if_pos h1]
      exact List.mem_cons_of_mem _ hx
    · by_cases h2 : k = j
      · simp only [insertLeaf]
        rw [if_neg h1, if_pos h2]
        rcases List.mem_cons.mp hx with h | h
        · exact absurd (by rw [h, h2]) hne
        · exact List.mem_cons_of_mem _ h
      · simp only [insertLeaf]
        rw [if_neg h1, if_neg h2]
        rcases List.mem_cons.mp hx with h | h
        · exact h ▸ List.mem_cons_self _ _
        · exact List.mem_cons_of_mem _ (ih h)

theorem lookup_mem {l : LeafList} {k : Nat} {v : Buffer}
    (h : lookupLeaf l k = some v) : (k, v) ∈ l := by
  induction l with
  | nil => simp [lookupLeaf] at h
  | cons kv rest ih =>
    obtain ⟨j, w⟩ := kv
    simp only [lookupLeaf] at h
    by_cases h1 : j = k
    · rw [if_pos h1] at h
      cases h
      exact h1 ▸ List.mem_cons_self _ _
    · rw [if_neg h1] at h
      exact List.mem_cons_of_mem _ (ih h)

theorem lookup_none_of (l : LeafList) (k : Nat) (h : ∀ x ∈ l, x.1 ≠ k) :
    lookupLeaf l k = none := by
  induction l with
  | nil => rfl
  | cons kv rest ih =>
    obtain ⟨j, w⟩ := kv
    simp only [lookupLeaf]
    rw [if_neg (h (j, w) (List.mem_cons_self _ _))]
    exact ih (fun x hx => h x (List.mem_cons_of_mem _ hx))

/-- A leaf list holds an entry at index `k`. -/
def hasKey (l : LeafList) (k : Nat) : Prop := ∃ w, (k, w) ∈ l

theorem hasKey_insert {l : LeafList} {n k : Nat} {v : Buffer}
    (h : hasKey l n) : hasKey (insertLeaf l k v) n := by
  obtain ⟨w, hw⟩ := h
  by_cases hk : n = k
  · subst hk
    exact ⟨v, lookup_mem (lookup_insert_self l n v)⟩
  · exact ⟨w, mem_insertLeaf_of_mem hw hk⟩

theorem hasKey_mergeView_acc {c : LeafList} {n : Nat} :
    ∀ staged : LeafList, hasKey c n → hasKey (mergeView staged c) n := by
  intro staged
  induction staged generalizing c with
  | nil => exact fun h => h
  | cons kv rest ih =>
    obtain ⟨j, w⟩ := kv
    intro h
    exact ih (hasKey_insert h)

theorem hasKey_mergeView_staged {n : Nat} :
    ∀ (staged c : LeafList), hasKey staged n → hasKey (mergeView staged c) n := by
  intro staged
  induction staged with
  | nil => intro c h; obtain ⟨w, hw⟩ := h; cases hw
  | cons kv rest ih =>
    obtain ⟨j, w⟩ := kv
    intro c h
    obtain ⟨w', hw'⟩ := h
    rcases List.mem_cons.mp hw' with h' | h'
    · have hj : n = j := congrArg Prod.fst h'
      subst hj
      exact hasKey_mergeView_acc rest ⟨w, lookup_mem (lookup_insert_self c n w)⟩
    · exact ih (insertLeaf c j w) ⟨w', h'⟩

theorem foldl_max_ge_init (l : LeafList) (init : Nat) :
    init ≤ l.foldl (fun m kv => max m (kv.1 + 1)) init := by
  induction l generalizing init with
  | nil => exact Nat.le_refl _
  | cons kv rest ih =>
    exact Nat.le_trans (Nat.le_max_left _ _) (ih (max init (kv.1 + 1)))

theorem foldl_max_ge_mem {l : LeafList} {k : Nat} {v : Buffer} (init : Nat)
    (h : (k, v) ∈ l) : k + 1 ≤ l.foldl (fun m kv => max m (kv.1 + 1)) init := by
  induction l generalizing init with
  | nil => cases h
  | cons kv rest ih =>
    rcases List.mem_cons.mp h with h' | h'
    · cases h'
      exact Nat.le_trans (Nat.le_max_right init _)
        (foldl_max_ge_init rest (max init (k + 1)))
    · exact ih _ h'

theorem leavesSize_ge {l : LeafList} {k : Nat} {v : Buffer} (h : (k, v) ∈ l) :
    k + 1 ≤ leavesSize l := foldl_max_ge_mem 0 h

/-! ## Lemmas about a single tree -/

theorem Tree.read_put_self (t : Tree) (k : Nat) (v : Buffer) :
    (t.put k v).read k = some v := by
  simp [Tree.read, Tree.put, lookup_insert_self]

theorem Tree.read_put_ne (t : Tree) (k n : Nat) (v : Buffer) (hne : n ≠ k) :
    (t.put k v).read n = t.read n := by
  simp [Tree.read, Tree.put, lookup_insert_ne _ _ _ _ hne]

theorem Tree.size_ge_of_read {t : Tree} {k : Nat} {v : Buffer}
    (h : t.read k = some v) : k + 1 ≤ t.size := by
  unfold Tree.read at h
  unfold Tree.size Tree.view
  cases hs : lookupLeaf t.staged k with
  | some w =>
    rw [hs] at h
    cases h
    obtain ⟨w', hw'⟩ := hasKey_mergeView_staged t.staged t.committed ⟨v, lookup_mem hs⟩
    exact leavesSize_ge hw'
  | none =>
    rw [hs] at h
    obtain ⟨w', hw'⟩ := hasKey_mergeView_acc t.staged ⟨v, lookup_mem h⟩
    exact leavesSize_ge hw'

/-- Staged layers with strictly ascending keys (the shape `put` maintains
when building on an empty staged layer). -/
def KeysSorted (l : LeafList) : Prop :=
  List.Pairwise (fun a b : Nat × Buffer => a.1 < b.1) l

theorem KeysSorted_nil : KeysSorted [] := List.Pairwise.nil

theorem KeysSorted_insert {l : LeafList} (k : Nat) (v : Buffer)
    (h : KeysSorted l) : KeysSorted (insertLeaf l k v) := by
  induction l with
  | nil => simp [insertLeaf, KeysSorted]
  | cons kv rest ih =>
    obtain ⟨j, w⟩ := kv
    rw [KeysSorted, List.pairwise_cons] at h
    obtain ⟨hj, hrest⟩ := h
    by_cases h1 : k < j
    · simp only [insertLeaf]
      rw [if_pos h1]
      rw [KeysSorted, List.pairwise_cons]
      constructor
      · intro b hb
        rcases List.mem_cons.mp hb with h' | h'
        · exact h' ▸ h1
        · exact Nat.lt_trans h1 (hj b h')
      · rw [KeysSorted, List.pairwise_cons] at *
        exact ⟨hj, hrest⟩
    · by_cases h2 : k = j
      · simp only [insertLeaf]
        rw [if_neg h1, if_pos h2]
        rw [KeysSorted, List.pairwise_cons]
        exact ⟨fun b hb => h2 ▸ hj b hb, hrest⟩
      · simp only [insertLeaf]
        rw [if_neg h1, if_neg h2]
        rw [KeysSorted, List.pairwise_cons]
        constructor
        · intro b hb
          rcases mem_insertLeaf hb with h' | h'
          · cases h'
            exact Nat.lt_of_le_of_ne (Nat.le_of_not_lt h1) (fun h => h2 h.symm)
          · exact hj b h'
        · exact ih hrest

theorem lookup_mergeView {k : Nat} :
    ∀ (staged c : LeafList), KeysSorted staged →
      lookupLeaf (mergeView staged c) k =
        (match lookupLeaf staged k with
         | some v => some v
         | none => lookupLeaf c k) := by
  intro staged
  induction staged with
  | nil => intro c _; rfl
  | cons kv rest ih =>
    obtain ⟨j, w⟩ := kv
    intro c hs
    rw [KeysSorted, List.pairwise_cons] at hs
    obtain ⟨hj, hrest⟩ := hs
    show lookupLeaf (mergeView rest (insertLeaf c j w)) k = _
    rw [ih (insertLeaf c j w) hrest]
    by_cases h1 : j = k
    · have hnone : lookupLeaf rest k = none := by
        refine lookup_none_of rest k (fun x hx => ?_)
        exact fun hxk => absurd (hj x hx) (by rw [hxk, h1]; exact Nat.lt_irrefl k)
      rw [hnone]
      simp only [lookupLeaf]
      rw [if_pos h1, h1, lookup_insert_self]
    · simp only [lookupLeaf]
      rw [if_neg h1]
      cases hres : lookupLeaf rest k with
      | some v => rfl
      | none => rw [lookup_insert_ne _ _ _ _ (fun h => h1 h.symm)]

theorem Tree.read_commit {t : Tree} (hs : KeysSorted t.staged) (k : Nat) :
    t.commit.read k = t.read k := by
  show (match lookupLeaf ([] : LeafList) k with
        | some v => some v
        | none => lookupLeaf t.view k) = t.read k
  show lookupLeaf t.view k = t.read k
  unfold Tree.view Tree.read
  exact lookup_mergeView t.staged t.committed hs

theorem Tree.view_commit (t : Tree) : t.commit.view = t.view := rfl

theorem Tree.size_commit (t : Tree) : t.commit.size = t.size := rfl

theorem Tree.commit_of_staged_empty {t : Tree} (h : t.staged = []) : t.commit = t := by
  cases t with
  | mk c s =>
    cases h
    rfl

theorem Tree.rollback_of_staged_empty {t : Tree} (h : t.staged = []) : t.rollback = t := by
  cases t with
  | mk c s =>
    cases h
    rfl

/-! ## Lemmas about the four-tree store -/

theorem Trees.get_set_self (t : Trees) (tag : TreeTag) (x : Tree) :
    (t.set tag x).get tag = x := by
  cases tag <;> rfl

theorem Trees.get_set_ne (t : Trees) (tag tag' : TreeTag) (x : Tree) (h : tag ≠ tag') :
    (t.set tag x).get tag' = t.get tag' := by
  cases tag <;> cases tag' <;> first | rfl | exact absurd rfl h

theorem Trees.get_put_self (t : Trees) (tag : TreeTag) (k : Nat) (v : Buffer) :
    (t.put tag k v).get tag = (t.get tag).put k v :=
  Trees.get_set_self t tag _

theorem Trees.get_put_ne (t : Trees) (tag tag' : TreeTag) (k : Nat) (v : Buffer)
    (h : tag ≠ tag') : (t.put tag k v).get tag' = t.get tag' :=
  Trees.get_set_ne t tag tag' _ h

theorem Trees.get_commitAll (t : Trees) (tag : TreeTag) :
    t.commitAll.get tag = (t.get tag).commit := by
  cases tag <;> rfl

theorem Trees.get_rollbackAll (t : Trees) (tag : TreeTag) :
    t.rollbackAll.get tag = (t.get tag).rollback := by
  cases tag <;> rfl

/-- All staged layers are key-sorted (holds after rollback or commit, and is
preserved by `put`). -/
def TreesWF (t : Trees) : Prop := ∀ tag, KeysSorted ((t.get tag).staged)

theorem TreesWF_put {t : Trees} (h : TreesWF t) (tag : TreeTag) (k : Nat) (v : Buffer) :
    TreesWF (t.put tag k v) := by
  intro tag'
  by_cases htag : tag = tag'
  · cases htag
    rw [Trees.get_put_self]
    exact KeysSorted_insert k v (h tag)
  · rw [Trees.get_put_ne t tag tag' k v htag]
    exact h tag'

theorem TreesWF_rollbackAll (t : Trees) : TreesWF t.rollbackAll := by
  intro tag
  rw [Trees.get_rollbackAll]
  exact KeysSorted_nil

theorem TreesWF_commitAll (t : Trees) : TreesWF t.commitAll := by
  intro tag
  rw [Trees.get_commitAll]
  exact KeysSorted_nil

theorem readT_put_self (t : Trees) (tag : TreeTag) (k : Nat) (v : Buffer) :
    readT (t.put tag k v) tag k = some v := by
  unfold readT
  rw [Trees.get_put_self]
  exact Tree.read_put_self _ k v

theorem readT_put_ne_key (t : Trees) (tag : TreeTag) (k n : Nat) (v : Buffer) (h : n ≠ k) :
    readT (t.put tag k v) tag n = readT t tag n := by
  unfold readT
  rw [Trees.get_put_self]
  exact Tree.read_put_ne _ k n v h

theorem readT_put_other (t : Trees) (tag tag' : TreeTag) (k n : Nat) (v : Buffer)
    (h : tag ≠ tag') : readT (t.put tag k v) tag' n = readT t tag' n := by
  unfold readT
  rw [Trees.get_put_ne t tag tag' k v h]

/-! ## Lemmas about apply-rollup-to-trees -/

theorem putNullifiers_get_data (p : InnerProofData) (t : Trees) :
    (putNullifiers p t).get .DATA = t.get .DATA := by
  unfold putNullifiers putNullifier1 putNullifier2
  split
  · rfl
  · split <;> split <;>
      simp only [Trees.get_put_ne _ .NULL .DATA _ _ (by intro h; cases h)]

theorem readT_putNullifiers_data (p : InnerProofData) (t : Trees) (n : Nat) :
    readT (putNullifiers p t) .DATA n = readT t .DATA n := by
  unfold readT
  rw [putNullifiers_get_data]

theorem putNullifiers_wf {p : InnerProofData} {t : Trees} (h : TreesWF t) :
    TreesWF (putNullifiers p t) := by
  unfold putNullifiers putNullifier1 putNullifier2
  split
  · exact h
  · split <;> split <;>
      first
        | exact h
        | exact TreesWF_put h _ _ _
        | exact TreesWF_put (TreesWF_put h _ _ _) _ _ _

theorem applyInnerLoop_get_data :
    ∀ (dsi : Nat) (l : List InnerProofData) (i0 : Nat) (t : Trees) (n : Nat),
      n < dsi + i0 * 2 →
      readT (applyInnerLoop dsi l i0 t) .DATA n = readT t .DATA n := by
  intro dsi l
  induction l with
  | nil => intro i0 t n _; rfl
  | cons p rest ih =>
    intro i0 t n hn
    show readT (applyInnerLoop dsi rest (i0 + 1) _) .DATA n = _
    rw [ih (i0 + 1) _ n (by omega)]
    rw [readT_putNullifiers_data]
    rw [readT_put_ne_key _ _ _ _ _ (by omega)]
    rw [readT_put_ne_key _ _ _ _ _ (by omega)]

theorem applyInnerLoop_wf :
    ∀ (dsi : Nat) (l : List InnerProofData) (i0 : Nat) (t : Trees),
      TreesWF t → TreesWF (applyInnerLoop dsi l i0 t) := by
  intro dsi l
  induction l with
  | nil => intro i0 t h; exact h
  | cons p rest ih =>
    intro i0 t h
    exact ih (i0 + 1) _ (putNullifiers_wf (TreesWF_put (TreesWF_put h _ _ _) _ _ _))

theorem applyInnerLoop_read :
    ∀ (dsi : Nat) (l : List InnerProofData) (i0 : Nat) (t : Trees) (k : Nat)
      (p : InnerProofData), l.get? k = some p →
      readT (applyInnerLoop dsi l i0 t) .DATA (dsi + (i0 + k) * 2) = some p.noteCommitment1 ∧
      readT (applyInnerLoop dsi l i0 t) .DATA (dsi + (i0 + k) * 2 + 1) = some p.noteCommitment2 := by
  intro dsi l
  induction l with
  | nil => intro i0 t k p hk; cases hk
  | cons q rest ih =>
    intro i0 t k p hk
    cases k with
    | zero =>
      cases hk
      simp only [Nat.add_zero]
      show readT (applyInnerLoop dsi rest (i0 + 1) _) .DATA (dsi + i0 * 2) = _ ∧
        readT (applyInnerLoop dsi rest (i0 + 1) _) .DATA (dsi + i0 * 2 + 1) = _
      rw [applyInnerLoop_get_data dsi rest (i0 + 1) _ _ (by omega),
        applyInnerLoop_get_data dsi rest (i0 + 1) _ _ (by omega)]
      rw [readT_putNullifiers_data, readT_putNullifiers_data]
      constructor
      · rw [readT_put_ne_key _ _ _ _ _ (by omega)]
        exact readT_put_self _ _ _ _
      · exact readT_put_self _ _ _ _
    | succ k' =>
      have hk' : rest.get? k' = some p := hk
      have h2 := ih (i0 + 1) (putNullifiers q ((t.put .DATA (dsi + i0 * 2)
        q.noteCommitment1).put .DATA (dsi + i0 * 2 + 1) q.noteCommitment2)) k' p hk'
      have harith : i0 + 1 + k' = i0 + (k' + 1) := by omega
      rw [harith] at h2
      exact h2

theorem applyDefiLoop_get_other :
    ∀ (s : Nat) (l : List Buffer) (i : Nat) (t : Trees) (tag : TreeTag), tag ≠ .DEFI →
      (applyDefiLoop s l i t).get tag = t.get tag := by
  intro s l
  induction l with
  | nil => intro i t tag _; rfl
  | cons note rest ih =>
    intro i t tag htag
    show (applyDefiLoop s rest (i + 1) _).get tag = _
    rw [ih (i + 1) _ tag htag]
    split
    · rfl
    · exact Trees.get_put_ne t .DEFI tag _ _ (fun h => htag h.symm)

theorem applyDefiLoop_wf :
    ∀ (s : Nat) (l : List Buffer) (i : Nat) (t : Trees),
      TreesWF t → TreesWF (applyDefiLoop s l i t) := by
  intro s l
  induction l with
  | nil => intro i t h; exact h
  | cons note rest ih =>
    intro i t h
    refine ih (i + 1) _ ?_
    split
    · exact h
    · exact TreesWF_put h _ _ _

theorem readT_commitAll {t : Trees} (hwf : TreesWF t) (tag : TreeTag) (n : Nat) :
    readT t.commitAll tag n = readT t tag n := by
  unfold readT
  rw [Trees.get_commitAll]
  exact Tree.read_commit (hwf tag) n

theorem updateDbs_trees (env : Env) (block : Block) (now : Int) (s : WS) :
    (updateDbs env block now s).trees = updateTrees env block.rollupProofData s.trees := rfl

theorem updateDbs_db (env : Env) (block : Block) (now : Int) (s : WS) :
    (updateDbs env block now s).db =
      confirmOrAddDb env block.rollupProofData block.offchainTxData block
        (processDefiProofsDb env block.rollupProofData block.offchainTxData block.created now
          block.interactionResult s.db) := rfl

theorem emptyTrees_wf : TreesWF emptyTrees := by
  intro tag
  cases tag <;> exact KeysSorted_nil

/-! ## Claim theorems -/

/-- C1: for every block processed by `updateDbs`, if all four roots decoded
from the block's rollup proof data equal the current roots of the DATA, NULL,
ROOT and DEFI trees, the tree store is committed and no leaves are written
(every tree's visible content is unchanged); otherwise the store is rolled
back and `addRollupToWorldState` is applied to the rolled-back trees; exactly
one of the two branches runs per block. -/
theorem updateDbs_commit_or_rollback (env : Env) (block : Block) (now : Int) (s : WS) :
    (rootsMatch env block.rollupProofData s.trees →
      (updateDbs env block now s).trees = s.trees.commitAll ∧
      ∀ tag, ((updateDbs env block now s).trees.get tag).view = (s.trees.get tag).view) ∧
    (¬ rootsMatch env block.rollupProofData s.trees →
      (updateDbs env block now s).trees =
        addRollupToWorldState env block.rollupProofData s.trees.rollbackAll) := by
  constructor
  · intro h
    have ht : (updateDbs env block now s).trees = s.trees.commitAll := by
      rw [updateDbs_trees]
      unfold updateTrees
      rw [if_pos h]
    refine ⟨ht, fun tag => ?_⟩
    rw [ht, Trees.get_commitAll]
    exact Tree.view_commit _
  · intro h
    rw [updateDbs_trees]
    unfold updateTrees
    rw [if_neg h]

/-- Witness for C1 at concrete inputs: a block whose decoded roots match the
empty-tree roots takes the commit branch, and one with a different data root
takes the rollback-and-apply branch. -/
theorem updateDbs_commit_or_rollback_witness :
    ((updateDbs envW (mkBlockW (mkRpW [padProofW] [] [] [])) 0 wsW).trees =
      wsW.trees.commitAll) ∧
    ((updateDbs envW (mkBlockW (mkRpW [padProofW] [] [3] [])) 0 wsW).trees =
      addRollupToWorldState envW (mkRpW [padProofW] [] [3] []) wsW.trees.rollbackAll) :=
  ⟨((updateDbs_commit_or_rollback envW (mkBlockW (mkRpW [padProofW] [] [] [])) 0 wsW).1
      (by decide)).1,
   (updateDbs_commit_or_rollback envW (mkBlockW (mkRpW [padProofW] [] [3] [])) 0 wsW).2
      (by decide)⟩

/-- C2 counterexample: the claim says no DATA-tree write is made for a padding
inner proof, but `addRollupToWorldState` writes the note commitments of every
inner proof, padding included: for a rollup whose only inner proof is padding,
the DATA leaf at `dataStartIndex + 0` goes from absent to the padding proof's
(zero) commitment. -/
theorem padding_note_commitments_written :
    (mkRpW [padProofW] [] [3] []).innerProofData.get? 0 = some padProofW ∧
    padProofW.isPadding = true ∧
    readT emptyTrees .DATA 0 = none ∧
    readT (addRollupToWorldState envW (mkRpW [padProofW] [] [3] []) emptyTrees) .DATA 0 =
      some (List.replicate 32 0) := by decide

/-- C2 (amended): in `addRollupToWorldState`, when the early-exit guard does
not fire, the note commitments of EVERY inner proof (padding entries
included) are written: for the inner proof at position `k`,
`noteCommitment1` lands at `dataStartIndex + 2k` and `noteCommitment2` at
`dataStartIndex + 2k + 1`; only the nullifier writes are restricted to
non-padding proofs. -/
theorem addRollupToWorldState_writes_commitments (env : Env) (rollup : RollupProofData)
    (trees : Trees) (hwf : TreesWF trees)
    (hguard : ¬ (trees.get .DATA).size > rollup.dataStartIndex)
    (k : Nat) (p : InnerProofData) (hk : rollup.innerProofData.get? k = some p) :
    readT (addRollupToWorldState env rollup trees) .DATA (rollup.dataStartIndex + k * 2) =
      some p.noteCommitment1 ∧
    readT (addRollupToWorldState env rollup trees) .DATA (rollup.dataStartIndex + k * 2 + 1) =
      some p.noteCommitment2 := by
  unfold addRollupToWorldState
  rw [if_neg hguard]
  have hwf3 : TreesWF (applyDefiLoop (rollup.rollupId * NUM_BRIDGE_CALLS_PER_BLOCK)
      rollup.defiInteractionNotes 0
      ((applyInnerLoop rollup.dataStartIndex rollup.innerProofData 0 trees).put .ROOT
        (rollup.rollupId + 1)
        (getRootT env (applyInnerLoop rollup.dataStartIndex rollup.innerProofData 0 trees)
          .DATA))) :=
    applyDefiLoop_wf _ _ _ _ (TreesWF_put (applyInnerLoop_wf _ _ _ _ hwf) _ _ _)
  rw [readT_commitAll hwf3, readT_commitAll hwf3]
  have hd : ∀ n, readT (applyDefiLoop (rollup.rollupId * NUM_BRIDGE_CALLS_PER_BLOCK)
      rollup.defiInteractionNotes 0
      ((applyInnerLoop rollup.dataStartIndex rollup.innerProofData 0 trees).put .ROOT
        (rollup.rollupId + 1)
        (getRootT env (applyInnerLoop rollup.dataStartIndex rollup.innerProofData 0 trees)
          .DATA))) .DATA n =
      readT (applyInnerLoop rollup.dataStartIndex rollup.innerProofData 0 trees) .DATA n := by
    intro n
    unfold readT
    rw [applyDefiLoop_get_other _ _ _ _ .DATA (by intro h; cases h)]
    rw [Trees.get_put_ne _ .ROOT .DATA _ _ (by intro h; cases h)]
  rw [hd, hd]
  have h2 := applyInnerLoop_read rollup.dataStartIndex rollup.innerProofData 0 trees k p hk
  simp only [Nat.zero_add] at h2
  exact h2

/-- Witness for C2 at a concrete input: the single deposit proof's
commitments land at DATA indices 0 and 1. -/
theorem addRollupToWorldState_writes_commitments_witness :
    readT (addRollupToWorldState envW (mkRpW [depositProofW] [] [3] []) emptyTrees) .DATA 0 =
      some [1] ∧
    readT (addRollupToWorldState envW (mkRpW [depositProofW] [] [3] []) emptyTrees) .DATA 1 =
      some [2] :=
  addRollupToWorldState_writes_commitments envW (mkRpW [depositProofW] [] [3] []) emptyTrees
    emptyTrees_wf (by decide) 0 depositProofW (by decide)

/-- C3: the code intends to skip the canonical zero defi-interaction note but
compares against `Buffer.alloc(0, 32)` — the EMPTY buffer — so a 32-zero-byte
zero note is never skipped: it is written into the DEFI tree at
`rollupId * NUM_BRIDGE_CALLS_PER_BLOCK + 0`. -/
theorem zero_defi_note_is_written :
    (mkRpW [padProofW] [List.replicate 32 0] [3] []).defiInteractionNotes =
      [List.replicate 32 0] ∧
    readT emptyTrees .DEFI (1 * NUM_BRIDGE_CALLS_PER_BLOCK) = none ∧
    readT (addRollupToWorldState envW (mkRpW [padProofW] [List.replicate 32 0] [3] [])
        emptyTrees) .DEFI (1 * NUM_BRIDGE_CALLS_PER_BLOCK) =
      some (List.replicate 32 0) := by decide

/-! ## Lemmas about the claim store -/

theorem countId_nil (n : Nat) : countId [] n = 0 := rfl

theorem countId_cons (c : ClaimDao) (l : List ClaimDao) (n : Nat) :
    countId (c :: l) n = if c.id = n then countId l n + 1 else countId l n := by
  unfold countId
  by_cases h : c.id = n
  · rw [if_pos h]
    simp [List.filter_cons, h]
  · rw [if_neg h]
    simp [List.filter_cons, h]

theorem countId_append (l1 l2 : List ClaimDao) (n : Nat) :
    countId (l1 ++ l2) n = countId l1 n + countId l2 n := by
  unfold countId
  rw [List.filter_append, List.length_append]

theorem countId_zero_iff (l : List ClaimDao) (n : Nat) :
    countId l n = 0 ↔ ∀ c ∈ l, c.id ≠ n := by
  induction l with
  | nil => simp [countId_nil]
  | cons c rest ih =>
    rw [countId_cons]
    by_cases h : c.id = n
    · rw [if_pos h]
      constructor
      · intro hc
        exact absurd hc (Nat.succ_ne_zero _)
      · intro hall
        exact absurd h (hall c (List.mem_cons_self _ _))
    · rw [if_neg h, ih]
      constructor
      · intro hall c' hc'
        rcases List.mem_cons.mp hc' with h' | h'
        · exact h' ▸ h
        · exact hall c' h'
      · intro hall c' hc'
        exact hall c' (List.mem_cons_of_mem _ hc')

theorem hasId_eq_false {l : List ClaimDao} {n : Nat} (h : ∀ c ∈ l, c.id ≠ n) :
    hasId l n = false := by
  unfold hasId
  rw [List.any_eq_false]
  intro c hc
  simp only [beq_iff_eq]
  exact h c hc

theorem addClaim_of_fresh (c : ClaimDao) (db : RollupDbState)
    (h : countId db.claims c.id = 0) :
    (addClaim c db).claims = db.claims ++ [c] := by
  have hf : hasId db.claims c.id = false := hasId_eq_false ((countId_zero_iff _ _).mp h)
  unfold addClaim
  rw [hf]
  simp

theorem claimCore_id (c : ClaimDao) : (claimCore c).id = c.id := rfl

theorem countId_map (f : ClaimDao → ClaimDao) (hid : ∀ c, (f c).id = c.id) :
    ∀ (l : List ClaimDao) (n : Nat), countId (l.map f) n = countId l n := by
  intro l n
  induction l with
  | nil => rfl
  | cons c rest ih => rw [List.map_cons, countId_cons, countId_cons, hid, ih]

theorem ClaimSpec_map (f : ClaimDao → ClaimDao)
    (hf : ∀ c, claimCore (f c) = claimCore c) {l : List ClaimDao} {n : Nat} {target : ClaimDao}
    (h : ClaimSpec l n target) : ClaimSpec (l.map f) n target := by
  have hid : ∀ c, (f c).id = c.id := by
    intro c
    have h3 := congrArg ClaimDao.id (hf c)
    exact h3
  obtain ⟨h1, h2⟩ := h
  refine ⟨by rw [countId_map f hid, h1], ?_⟩
  intro c' hc' hcid
  obtain ⟨c, hc, hfc⟩ := List.mem_map.mp hc'
  subst hfc
  rw [hf c]
  exact h2 c hc (by rw [← hid c]; exact hcid)

theorem claimCore_confirmClaimed_fun (X : Buffer) (t' : Int) (c : ClaimDao) :
    claimCore (if c.nullifier = X then { c with claimed := some t' } else c) = claimCore c := by
  split <;> rfl

theorem claimCore_updateClaims_fun (nonce : Nat) (rid : Nat) (c : ClaimDao) :
    claimCore (if c.interactionNonce = (nonce : Int)
      then { c with interactionResultRollupId := some rid } else c) = claimCore c := by
  split <;> rfl

theorem ClaimSpec_confirmClaimed (X : Buffer) (t' : Int) {db : RollupDbState} {n : Nat}
    {target : ClaimDao} (h : ClaimSpec db.claims n target) :
    ClaimSpec (confirmClaimed X t' db).claims n target :=
  ClaimSpec_map _ (claimCore_confirmClaimed_fun X t') h

theorem ClaimSpec_updateClaims (nonce rid : Nat) {db : RollupDbState} {n : Nat}
    {target : ClaimDao} (h : ClaimSpec db.claims n target) :
    ClaimSpec (updateClaimsWithResultRollupId nonce rid db).claims n target :=
  ClaimSpec_map _ (claimCore_updateClaims_fun nonce rid) h

theorem ClaimSpec_addClaim_ne (c : ClaimDao) {db : RollupDbState} {n : Nat} {target : ClaimDao}
    (hne : c.id ≠ n) (h : ClaimSpec db.claims n target) :
    ClaimSpec (addClaim c db).claims n target := by
  unfold addClaim
  split
  · exact h
  · show ClaimSpec (db.claims ++ [c]) n target
    obtain ⟨h1, h2⟩ := h
    constructor
    · rw [countId_append, h1, countId_cons, if_neg hne, countId_nil]
    · intro c' hc' hcid
      rcases List.mem_append.mp hc' with h' | h'
      · exact h2 c' h' hcid
      · have : c' = c := List.mem_singleton.mp h'
        exact absurd (this ▸ hcid) hne

theorem ClaimSpec_addClaim_self (c : ClaimDao) (db : RollupDbState)
    (hfree : countId db.claims c.id = 0) :
    ClaimSpec (addClaim c db).claims c.id c := by
  rw [addClaim_of_fresh c db hfree]
  constructor
  · rw [countId_append, hfree, countId_cons, if_pos rfl, countId_nil]
  · intro c' hc' hcid
    rcases List.mem_append.mp hc' with h' | h'
    · exact absurd hcid ((countId_zero_iff _ _).mp hfree c' h')
    · rw [List.mem_singleton.mp h']

theorem countId_addClaim_ne (c : ClaimDao) (db : RollupDbState) (n : Nat) (hne : c.id ≠ n) :
    countId (addClaim c db).claims n = countId db.claims n := by
  unfold addClaim
  split
  · rfl
  · show countId (db.claims ++ [c]) n = _
    rw [countId_append, countId_cons, if_neg hne, countId_nil]
    omega

theorem countId_confirmClaimed (X : Buffer) (t' : Int) (db : RollupDbState) (n : Nat) :
    countId (confirmClaimed X t' db).claims n = countId db.claims n := by
  refine countId_map _ ?_ _ n
  intro c
  have h3 := congrArg ClaimDao.id (claimCore_confirmClaimed_fun X t' c)
  exact h3

theorem countId_updateClaims (nonce rid : Nat) (db : RollupDbState) (n : Nat) :
    countId (updateClaimsWithResultRollupId nonce rid db).claims n = countId db.claims n := by
  refine countId_map _ ?_ _ n
  intro c
  have h3 := congrArg ClaimDao.id (claimCore_updateClaims_fun nonce rid c)
  exact h3

theorem mkClaimDao_id (env : Env) (rollup : RollupProofData) (offchain : List Buffer)
    (p : InnerProofData) (i oc : Nat) (now : Int) :
    (mkClaimDao env rollup offchain p i oc now).id = rollup.dataStartIndex + i * 2 := rfl

theorem processInner_cons (env : Env) (rollup : RollupProofData) (offchain : List Buffer)
    (created now : Int) (p : InnerProofData) (rest : List InnerProofData) (i oc : Nat)
    (db : RollupDbState) :
    processInner env rollup offchain created now (p :: rest) i oc db =
      if p.isPadding then processInner env rollup offchain created now rest (i + 1) oc db
      else processInner env rollup offchain created now rest (i + 1) (oc + 1)
        (processInnerStep env rollup offchain created now p i oc db) := rfl

theorem ClaimSpec_processInnerStep (env : Env) (rollup : RollupProofData)
    (offchain : List Buffer) (created now : Int) (p : InnerProofData) (i oc : Nat)
    {db : RollupDbState} {n : Nat} {target : ClaimDao}
    (hne : rollup.dataStartIndex + i * 2 ≠ n) (h : ClaimSpec db.claims n target) :
    ClaimSpec (processInnerStep env rollup offchain created now p i oc db).claims n target := by
  unfold processInnerStep
  split
  · exact ClaimSpec_addClaim_ne _ (by rw [mkClaimDao_id]; exact hne) h
  · split
    · exact ClaimSpec_confirmClaimed _ _ h
    · exact h

theorem countId_processInnerStep (env : Env) (rollup : RollupProofData)
    (offchain : List Buffer) (created now : Int) (p : InnerProofData) (i oc : Nat)
    (db : RollupDbState) (n : Nat) (hne : rollup.dataStartIndex + i * 2 ≠ n) :
    countId (processInnerStep env rollup offchain created now p i oc db).claims n =
      countId db.claims n := by
  unfold processInnerStep
  split
  · exact countId_addClaim_ne _ _ _ (by rw [mkClaimDao_id]; exact hne)
  · split
    · exact countId_confirmClaimed _ _ _ _
    · rfl

theorem ClaimSpec_processInner (env : Env) (rollup : RollupProofData) (offchain : List Buffer)
    (created now : Int) :
    ∀ (l : List InnerProofData) (i0 oc : Nat) (db : RollupDbState) (n : Nat)
      (target : ClaimDao), n < rollup.dataStartIndex + i0 * 2 →
      ClaimSpec db.claims n target →
      ClaimSpec (processInner env rollup offchain created now l i0 oc db).claims n target := by
  intro l
  induction l with
  | nil => intro i0 oc db n target _ h; exact h
  | cons p rest ih =>
    intro i0 oc db n target hn h
    rw [processInner_cons]
    by_cases hp : p.isPadding
    · rw [if_pos hp]
      exact ih (i0 + 1) oc db n target (by omega) h
    · rw [if_neg hp]
      exact ih (i0 + 1) (oc + 1) _ n target (by omega)
        (ClaimSpec_processInnerStep env rollup offchain created now p i0 oc (by omega) h)

theorem ocAt_zero (l : List InnerProofData) : ocAt l 0 = 0 := rfl

theorem ocAt_cons_pad {q : InnerProofData} (rest : List InnerProofData) (k : Nat)
    (hq : q.isPadding = true) : ocAt (q :: rest) (k + 1) = ocAt rest k := by
  unfold ocAt
  simp [List.take_succ_cons, List.filter_cons, hq]

theorem ocAt_cons_nonpad {q : InnerProofData} (rest : List InnerProofData) (k : Nat)
    (hq : q.isPadding = false) : ocAt (q :: rest) (k + 1) = ocAt rest k + 1 := by
  unfold ocAt
  simp [List.take_succ_cons, List.filter_cons, hq]

theorem processInner_reach (env : Env) (rollup : RollupProofData) (offchain : List Buffer)
    (created now : Int) :
    ∀ (l : List InnerProofData) (k i0 oc : Nat) (db : RollupDbState) (p : InnerProofData),
      l.get? k = some p → p.isPadding = false → p.proofId = ProofId.DEFI_DEPOSIT →
      countId db.claims (rollup.dataStartIndex + (i0 + k) * 2) = 0 →
      ClaimSpec (processInner env rollup offchain created now l i0 oc db).claims
        (rollup.dataStartIndex + (i0 + k) * 2)
        (mkClaimDao env rollup offchain p (i0 + k) (oc + ocAt l k) now) := by
  intro l
  induction l with
  | nil => intro k i0 oc db p hk; cases hk
  | cons q rest ih =>
    intro k i0 oc db p hk hpad hdep hfree
    cases k with
    | zero =>
      injection hk with hqp
      subst hqp
      rw [processInner_cons, if_neg (by rw [hpad]; exact Bool.false_ne_true)]
      simp only [Nat.add_zero, ocAt_zero]
      simp only [Nat.add_zero] at hfree
      refine ClaimSpec_processInner env rollup offchain created now rest (i0 + 1) (oc + 1) _
        _ _ (by omega) ?_
      unfold processInnerStep
      rw [if_pos hdep]
      have h4 := ClaimSpec_addClaim_self (mkClaimDao env rollup offchain q i0 oc now) db
        (by rw [mkClaimDao_id]; exact hfree)
      rw [mkClaimDao_id] at h4
      exact h4
    | succ k' =>
      have hk' : rest.get? k' = some p := hk
      rw [processInner_cons]
      have harith : i0 + (k' + 1) = i0 + 1 + k' := by omega
      rw [harith]
      rw [harith] at hfree
      by_cases hq : q.isPadding
      · rw [if_pos hq, ocAt_cons_pad rest k' hq]
        exact ih k' (i0 + 1) oc db p hk' hpad hdep hfree
      · rw [if_neg hq, ocAt_cons_nonpad rest k' (Bool.eq_false_iff.mpr hq)]
        rw [show oc + (ocAt rest k' + 1) = (oc + 1) + ocAt rest k' by omega]
        refine ih k' (i0 + 1) (oc + 1) _ p hk' hpad hdep ?_
        rw [countId_processInnerStep env rollup offchain created now q i0 oc db _ (by omega)]
        exact hfree

theorem ClaimSpec_interactionLoop (rid : Nat) :
    ∀ (notes : List DefiInteractionNote) (db : RollupDbState) (n : Nat) (target : ClaimDao),
      ClaimSpec db.claims n target →
      ClaimSpec (interactionLoop rid notes db).claims n target := by
  intro notes
  induction notes with
  | nil => intro db n target h; exact h
  | cons note rest ih =>
    intro db n target h
    exact ih _ n target (ClaimSpec_updateClaims note.nonce rid h)

/-- The claim inserted by `processDefiProofs` for the `DEFI_DEPOSIT` inner
proof at position `k` is unique at leaf index `dataStartIndex + 2k` and its
immutable fields are those of `mkClaimDao` at off-chain index `ocAt
innerProofData k` (the number of preceding non-padding proofs). -/
theorem processDefiProofsDb_claim (env : Env) (rollup : RollupProofData)
    (offchain : List Buffer) (created now : Int) (results : List DefiInteractionNote)
    (db : RollupDbState) (k : Nat) (p : InnerProofData)
    (hk : rollup.innerProofData.get? k = some p) (hpad : p.isPadding = false)
    (hdep : p.proofId = ProofId.DEFI_DEPOSIT)
    (hfree : countId db.claims (rollup.dataStartIndex + k * 2) = 0) :
    ClaimSpec (processDefiProofsDb env rollup offchain created now results db).claims
      (rollup.dataStartIndex + k * 2)
      (mkClaimDao env rollup offchain p k (ocAt rollup.innerProofData k) now) := by
  unfold processDefiProofsDb
  refine ClaimSpec_interactionLoop _ _ _ _ _ ?_
  have h2 := processInner_reach env rollup offchain created now rollup.innerProofData k 0 0 db
    p hk hpad hdep (by simpa using hfree)
  simpa using h2

theorem mapWithIndex_get? {α β : Type} (f : Nat → α → β) :
    ∀ (l : List α) (i k : Nat), (mapWithIndex f i l).get? k = (l.get? k).map (f (i + k)) := by
  intro l
  induction l with
  | nil => intro i k; cases k <;> rfl
  | cons a rest ih =>
    intro i k
    cases k with
    | zero => rfl
    | succ k' =>
      have h2 := ih (i + 1) k'
      rw [show i + 1 + k' = i + (k' + 1) by omega] at h2
      exact h2

/-- C5: for a `DEFI_DEPOSIT` inner proof at position `k` whose bridge id is
found in the rollup's `bridgeIds` vector at index `j`, `processDefiProofs`
inserts exactly one `ClaimDao` at leaf index `dataStartIndex + 2k`, with
`fee = txFee - (txFee >> 1)` and
`interactionNonce = j + rollupId * NUM_BRIDGE_CALLS_PER_BLOCK`. -/
theorem processDefi_defi_deposit_claim (env : Env) (rollup : RollupProofData)
    (offchain : List Buffer) (created now : Int) (results : List DefiInteractionNote)
    (db : RollupDbState) (k : Nat) (p : InnerProofData) (j : Nat)
    (hk : rollup.innerProofData.get? k = some p) (hpad : p.isPadding = false)
    (hdep : p.proofId = ProofId.DEFI_DEPOSIT)
    (hfree : countId db.claims (rollup.dataStartIndex + k * 2) = 0)
    (hj : findIdxB rollup.bridgeIds (env.parseOffchainDefiDeposit
      (offchain.getD (ocAt rollup.innerProofData k) [])).bridgeId.bufRep = some j) :
    countId (processDefiProofsDb env rollup offchain created now results db).claims
      (rollup.dataStartIndex + k * 2) = 1 ∧
    ∀ c ∈ (processDefiProofsDb env rollup offchain created now results db).claims,
      c.id = rollup.dataStartIndex + k * 2 →
      c.fee = (env.parseOffchainDefiDeposit
          (offchain.getD (ocAt rollup.innerProofData k) [])).txFee -
        ((env.parseOffchainDefiDeposit
          (offchain.getD (ocAt rollup.innerProofData k) [])).txFee >>> 1) ∧
      c.interactionNonce = (j : Int) +
        ((rollup.rollupId * NUM_BRIDGE_CALLS_PER_BLOCK : Nat) : Int) := by
  obtain ⟨h1, h2⟩ := processDefiProofsDb_claim env rollup offchain created now results db k p
    hk hpad hdep hfree
  refine ⟨h1, fun c hc hid => ?_⟩
  have hcore := h2 c hc hid
  have hfee : c.fee = (mkClaimDao env rollup offchain p k
      (ocAt rollup.innerProofData k) now).fee := by
    have h3 := congrArg ClaimDao.fee hcore
    exact h3
  have hnonce : c.interactionNonce = (mkClaimDao env rollup offchain p k
      (ocAt rollup.innerProofData k) now).interactionNonce := by
    have h3 := congrArg ClaimDao.interactionNonce hcore
    exact h3
  constructor
  · rw [hfee]
    rfl
  · rw [hnonce]
    show findIndexOf rollup.bridgeIds _ + _ = _
    unfold findIndexOf
    rw [hj]

/-- Witness for C5: in `rpW5` the deposit sits at inner position 1 with
off-chain index 0; its claim is unique at leaf index 2 with fee
`10 - (10 >> 1) = 5` and nonce `0 + 1 * 32 = 32`. -/
theorem processDefi_defi_deposit_claim_witness :
    countId (processDefiProofsDb envW rpW5 [[13]] 1000 7 [] emptyDb).claims 2 = 1 ∧
    claimW5.fee = 5 ∧ claimW5.interactionNonce = 32 := by
  have hth := processDefi_defi_deposit_claim envW rpW5 [[13]] 1000 7 [] emptyDb 1
    depositProofW 0 (by decide) (by decide) (by decide) (by decide) (by decide)
  have hmem : claimW5 ∈ (processDefiProofsDb envW rpW5 [[13]] 1000 7 [] emptyDb).claims := by
    decide
  have hcl := hth.2 claimW5 hmem (by decide)
  exact ⟨hth.1, hcl.1, hcl.2⟩

/-- C10: for a `DEFI_DEPOSIT` inner proof whose bridge id does NOT occur in
`bridgeIds`, the claim is still inserted (the walk raises no error) and the
failed `findIndex` contributes `-1`:
`interactionNonce = rollupId * NUM_BRIDGE_CALLS_PER_BLOCK - 1`. -/
theorem processDefi_missing_bridge_claim (env : Env) (rollup : RollupProofData)
    (offchain : List Buffer) (created now : Int) (results : List DefiInteractionNote)
    (db : RollupDbState) (k : Nat) (p : InnerProofData)
    (hk : rollup.innerProofData.get? k = some p) (hpad : p.isPadding = false)
    (hdep : p.proofId = ProofId.DEFI_DEPOSIT)
    (hfree : countId db.claims (rollup.dataStartIndex + k * 2) = 0)
    (hj : findIdxB rollup.bridgeIds (env.parseOffchainDefiDeposit
      (offchain.getD (ocAt rollup.innerProofData k) [])).bridgeId.bufRep = none) :
    countId (processDefiProofsDb env rollup offchain created now results db).claims
      (rollup.dataStartIndex + k * 2) = 1 ∧
    ∀ c ∈ (processDefiProofsDb env rollup offchain created now results db).claims,
      c.id = rollup.dataStartIndex + k * 2 →
      c.interactionNonce =
        ((rollup.rollupId * NUM_BRIDGE_CALLS_PER_BLOCK : Nat) : Int) - 1 := by
  obtain ⟨h1, h2⟩ := processDefiProofsDb_claim env rollup offchain created now results db k p
    hk hpad hdep hfree
  refine ⟨h1, fun c hc hid => ?_⟩
  have hcore := h2 c hc hid
  have hnonce : c.interactionNonce = (mkClaimDao env rollup offchain p k
      (ocAt rollup.innerProofData k) now).interactionNonce := by
    have h3 := congrArg ClaimDao.interactionNonce hcore
    exact h3
  rw [hnonce]
  show findIndexOf rollup.bridgeIds _ + _ = _
  unfold findIndexOf
  rw [hj]
  show (-1 : Int) + ((rollup.rollupId * NUM_BRIDGE_CALLS_PER_BLOCK : Nat) : Int) = _
  omega

/-- Witness for C10: `rpW10` looks up bridge buffer `[7]` in `bridgeIds
= [[9]]`, fails, and the inserted claim carries nonce `1 * 32 - 1 = 31`. -/
theorem processDefi_missing_bridge_claim_witness :
    countId (processDefiProofsDb envW rpW10 [[13]] 1000 7 [] emptyDb).claims 0 = 1 ∧
    claimW10.interactionNonce = 31 := by
  have hth := processDefi_missing_bridge_claim envW rpW10 [[13]] 1000 7 [] emptyDb 0
    depositProofW (by decide) (by decide) (by decide) (by decide) (by decide)
  have hmem : claimW10 ∈ (processDefiProofsDb envW rpW10 [[13]] 1000 7 [] emptyDb).claims := by
    decide
  exact ⟨hth.1, hth.2 claimW10 hmem (by decide)⟩

/-- C6: the i-th non-padding inner proof is paired with `offchainTxData[i]`:
(a) in `processDefiProofs` the claim built for the `DEFI_DEPOSIT` at inner
position `k` parses the blob at index `ocAt innerProofData k` — the running
off-chain index that increments once per non-padding proof; (b) in the
not-found branch of `confirmOrAddRollupToDb`, the k-th rebuilt `TxDao` comes
from the k-th NON-PADDING inner proof paired with `offchainTxData[k]`. -/
theorem offchain_pairing_by_nonpadding_count (env : Env) (rollup : RollupProofData)
    (offchain : List Buffer) (created now : Int) (results : List DefiInteractionNote)
    (db : RollupDbState) (block : Block) :
    (∀ (k : Nat) (p : InnerProofData), rollup.innerProofData.get? k = some p →
      p.isPadding = false → p.proofId = ProofId.DEFI_DEPOSIT →
      countId db.claims (rollup.dataStartIndex + k * 2) = 0 →
      ∀ c ∈ (processDefiProofsDb env rollup offchain created now results db).claims,
        c.id = rollup.dataStartIndex + k * 2 →
        c.depositValue = (env.parseOffchainDefiDeposit
          (offchain.getD (ocAt rollup.innerProofData k) [])).depositValue ∧
        c.bridgeId = (env.parseOffchainDefiDeposit
          (offchain.getD (ocAt rollup.innerProofData k) [])).bridgeId.bigIntRep ∧
        c.inputNullifier = p.nullifier1) ∧
    (getRollupProof db rollup.rollupHash = none → ∀ k : Nat,
      ((confirmOrAddDb env rollup offchain block db).rollups.head?.map
        (fun dao => dao.rollupProof.txs.get? k)) =
      some (((rollup.innerProofData.filter (fun tx => !tx.isPadding)).get? k).map
        (fun p => innerProofDataToTxDao env p (offchain.getD k []) block.created
          (env.getTxType p)))) := by
  constructor
  · intro k p hk hpad hdep hfree c hc hid
    obtain ⟨h1, h2⟩ := processDefiProofsDb_claim env rollup offchain created now results db k p
      hk hpad hdep hfree
    have hcore := h2 c hc hid
    refine ⟨?_, ?_, ?_⟩
    · have h3 := congrArg ClaimDao.depositValue hcore
      exact h3
    · have h3 := congrArg ClaimDao.bridgeId hcore
      exact h3
    · have h3 := congrArg ClaimDao.inputNullifier hcore
      exact h3
  · intro hnone k
    unfold confirmOrAddDb
    rw [hnone]
    show some ((mkRollupDao env rollup offchain block
        (getAssetMetricsF env rollup block.interactionResult db)).rollupProof.txs.get? k) = _
    rw [show (mkRollupDao env rollup offchain block
        (getAssetMetricsF env rollup block.interactionResult db)).rollupProof.txs =
      mapWithIndex (fun i p => innerProofDataToTxDao env p (offchain.getD i []) block.created
        (env.getTxType p)) 0 (rollup.innerProofData.filter (fun tx => !tx.isPadding)) from rfl]
    rw [mapWithIndex_get?]
    simp only [Nat.zero_add]

/-- Witness for C6: in `rpW5` the deposit (inner position 1, one padding
proof before it) parses blob 0; and the rebuilt tx list pairs non-padding
proof 0 with blob 0. -/
theorem offchain_pairing_by_nonpadding_count_witness :
    claimW5.depositValue = 100 ∧ claimW5.inputNullifier = [8] ∧
    ((confirmOrAddDb envW rpW5 [[13]] (mkBlockW rpW5) emptyDb).rollups.head?.map
      (fun dao => dao.rollupProof.txs.get? 0)) =
      some (some (innerProofDataToTxDao envW depositProofW [13] 1000 1)) := by
  have hth := offchain_pairing_by_nonpadding_count envW rpW5 [[13]] 1000 7 [] emptyDb
    (mkBlockW rpW5)
  have hmem : claimW5 ∈ (processDefiProofsDb envW rpW5 [[13]] 1000 7 [] emptyDb).claims := by
    decide
  have ha := hth.1 1 depositProofW (by decide) (by decide) (by decide) (by decide)
    claimW5 hmem (by decide)
  have hb := hth.2 (by decide) 0
  exact ⟨ha.1, ha.2.2, hb⟩

/-! ## Lemmas for confirm-or-add-rollup -/

theorem mapWithIndex_length {α β : Type} (f : Nat → α → β) :
    ∀ (l : List α) (i : Nat), (mapWithIndex f i l).length = l.length := by
  intro l
  induction l with
  | nil => intro i; rfl
  | cons a rest ih =>
    intro i
    show (mapWithIndex f (i + 1) rest).length + 1 = rest.length + 1
    rw [ih]

theorem durStep_sub (created : Int) (txs : List TxDao) (acc : List Int)
    (inner : InnerProofData) {x : Int} (hx : x ∈ acc) : x ∈ durStep created txs acc inner := by
  unfold durStep
  split
  · exact hx
  · split
    · exact hx
    · exact List.mem_append_left _ hx

theorem foldl_durStep_sub (created : Int) (txs : List TxDao) :
    ∀ (l : List InnerProofData) (acc : List Int) {x : Int}, x ∈ acc →
      x ∈ l.foldl (durStep created txs) acc := by
  intro l
  induction l with
  | nil => intro acc x hx; exact hx
  | cons inner rest ih =>
    intro acc x hx
    exact ih _ (durStep_sub created txs acc inner hx)

theorem foldl_durStep_mem (created : Int) (txs : List TxDao) :
    ∀ (l : List InnerProofData) (acc : List Int) (inner : InnerProofData) (tx : TxDao),
      inner ∈ l → inner.isPadding = false →
      txs.find? (fun t => t.id == inner.txId) = some tx →
      (created - tx.created) ∈ l.foldl (durStep created txs) acc := by
  intro l
  induction l with
  | nil => intro acc inner tx hmem; cases hmem
  | cons q rest ih =>
    intro acc inner tx hmem hpad hfind
    rcases List.mem_cons.mp hmem with h | h
    · subst h
      refine foldl_durStep_sub created txs rest _ ?_
      unfold durStep
      rw [if_neg (by rw [hpad]; exact Bool.false_ne_true), hfind]
      exact List.mem_append_right _ (List.mem_singleton.mpr rfl)
    · exact ih _ inner tx h hpad hfind

/-- C7: `confirmOrAddRollupToDb` looks the rollup proof up by `rollupHash`;
if found, `confirm_mined` is applied with the block's gas data, tx ids and
asset metrics, and a settlement duration `block.created - tx.created` is
emitted for each non-padding inner proof whose tx is among the stored
proof's txs; if not found, a `RollupProofDao` is rebuilt from exactly the
non-padding inner proofs and stored via `add_rollup` inside a `RollupDao`
carrying the block's gas info and packed interaction results. -/
theorem confirmOrAdd_branches (env : Env) (rollup : RollupProofData) (offchain : List Buffer)
    (block : Block) (db : RollupDbState) :
    (∀ rpf, getRollupProof db rollup.rollupHash = some rpf →
      (confirmOrAddDb env rollup offchain block db =
        confirmMined env db rollup.rollupId block.gasUsed block.gasPrice block.created
          block.txHash block.interactionResult (rpf.txs.map (fun tx => tx.id))
          (getAssetMetricsF env rollup block.interactionResult db)) ∧
      (∀ inner ∈ rollup.innerProofData, inner.isPadding = false →
        ∀ tx, rpf.txs.find? (fun t => t.id == inner.txId) = some tx →
          (block.created - tx.created) ∈ settlementDurations rollup block db)) ∧
    (getRollupProof db rollup.rollupHash = none →
      (confirmOrAddDb env rollup offchain block db =
        addRollup (mkRollupDao env rollup offchain block
          (getAssetMetricsF env rollup block.interactionResult db)) db) ∧
      settlementDurations rollup block db = [] ∧
      (mkRollupDao env rollup offchain block
        (getAssetMetricsF env rollup block.interactionResult db)).rollupProof.txs.length =
        (rollup.innerProofData.filter (fun tx => !tx.isPadding)).length ∧
      (mkRollupDao env rollup offchain block
        (getAssetMetricsF env rollup block.interactionResult db)).id = rollup.rollupId ∧
      (mkRollupDao env rollup offchain block
        (getAssetMetricsF env rollup block.interactionResult db)).rollupProof.id =
          rollup.rollupHash ∧
      (mkRollupDao env rollup offchain block
        (getAssetMetricsF env rollup block.interactionResult db)).gasUsed = block.gasUsed ∧
      (mkRollupDao env rollup offchain block
        (getAssetMetricsF env rollup block.interactionResult db)).gasPrice =
          toBufferBE block.gasPrice 32 ∧
      (mkRollupDao env rollup offchain block
        (getAssetMetricsF env rollup block.interactionResult db)).interactionResult =
          joinBufs (block.interactionResult.map env.serializeDefiNote)) := by
  constructor
  · intro rpf hfound
    constructor
    · unfold confirmOrAddDb
      rw [hfound]
    · intro inner hmem hpad tx hfind
      unfold settlementDurations
      rw [hfound]
      exact foldl_durStep_mem block.created rpf.txs rollup.innerProofData [] inner tx
        hmem hpad hfind
  · intro hnone
    refine ⟨?_, ?_, ?_, rfl, rfl, rfl, rfl, rfl⟩
    · unfold confirmOrAddDb
      rw [hnone]
    · unfold settlementDurations
      rw [hnone]
    · show (mapWithIndex _ 0 (rollup.innerProofData.filter (fun tx => !tx.isPadding))).length = _
      exact mapWithIndex_length _ _ _

/-- Witness for C7: with `rpW5`'s proof stored (hash `[10]`), the found
branch applies `confirmMined` with the block's gas data and emits the
settlement duration `1000 - 900 = 100` for the deposit tx. -/
theorem confirmOrAdd_branches_witness :
    (confirmOrAddDb envW rpW5 [[13]] (mkBlockW rpW5) dbW7 =
      confirmMined envW dbW7 1 21 3 1000 [11] [] [[9]] []) ∧
    (100 : Int) ∈ settlementDurations rpW5 (mkBlockW rpW5) dbW7 := by
  have hth := (confirmOrAdd_branches envW rpW5 [[13]] (mkBlockW rpW5) dbW7).1 proofW (by decide)
  constructor
  · exact hth.1
  · exact hth.2 depositProofW (by decide) (by decide) txW (by decide)

/-- C8: init-from-files leaves tree and relational state untouched when the
account data file is absent, when the account list is empty, or when any
expected root is empty; after populating the trees, any computed root
differing from its expected root aborts startup with an error (no account
rows persisted); only when all three roots match are the derived
`AccountDao` rows persisted. -/
theorem syncStateFromInitFiles_behavior (ienv : InitEnv) (trees : Trees) (db : RollupDbState) :
    (ienv.getAccountDataFile ienv.chainId = none →
      syncStateFromInitFiles ienv trees db = .ok (trees, db)) ∧
    (∀ file, ienv.getAccountDataFile ienv.chainId = some file →
      ienv.readAccountTreeData file = [] →
      syncStateFromInitFiles ienv trees db = .ok (trees, db)) ∧
    (∀ file, ienv.getAccountDataFile ienv.chainId = some file →
      ((ienv.getInitRoots ienv.chainId).1 = [] ∨ (ienv.getInitRoots ienv.chainId).2.1 = [] ∨
        (ienv.getInitRoots ienv.chainId).2.2 = []) →
      syncStateFromInitFiles ienv trees db = .ok (trees, db)) ∧
    (∀ file, ienv.getAccountDataFile ienv.chainId = some file →
      ienv.readAccountTreeData file ≠ [] →
      ¬((ienv.getInitRoots ienv.chainId).1 = [] ∨ (ienv.getInitRoots ienv.chainId).2.1 = [] ∨
        (ienv.getInitRoots ienv.chainId).2.2 = []) →
      ((ienv.getInitRoots ienv.chainId).1 ≠
          (ienv.populateDataAndRootsTrees (ienv.readAccountTreeData file) trees).2.1 ∨
        (ienv.getInitRoots ienv.chainId).2.2 ≠
          (ienv.populateDataAndRootsTrees (ienv.readAccountTreeData file) trees).2.2 ∨
        (ienv.getInitRoots ienv.chainId).2.1 ≠
          (ienv.populateNullTree (ienv.readAccountTreeData file)
            (ienv.populateDataAndRootsTrees (ienv.readAccountTreeData file) trees).1).2) →
      isOkE (syncStateFromInitFiles ienv trees db) = false) ∧
    (∀ file, ienv.getAccountDataFile ienv.chainId = some file →
      ienv.readAccountTreeData file ≠ [] →
      ¬((ienv.getInitRoots ienv.chainId).1 = [] ∨ (ienv.getInitRoots ienv.chainId).2.1 = [] ∨
        (ienv.getInitRoots ienv.chainId).2.2 = []) →
      (ienv.getInitRoots ienv.chainId).1 =
        (ienv.populateDataAndRootsTrees (ienv.readAccountTreeData file) trees).2.1 →
      (ienv.getInitRoots ienv.chainId).2.2 =
        (ienv.populateDataAndRootsTrees (ienv.readAccountTreeData file) trees).2.2 →
      (ienv.getInitRoots ienv.chainId).2.1 =
        (ienv.populateNullTree (ienv.readAccountTreeData file)
          (ienv.populateDataAndRootsTrees (ienv.readAccountTreeData file) trees).1).2 →
      syncStateFromInitFiles ienv trees db =
        .ok ((ienv.populateNullTree (ienv.readAccountTreeData file)
            (ienv.populateDataAndRootsTrees (ienv.readAccountTreeData file) trees).1).1,
          addAccounts ((ienv.readAccountTreeData file).map (fun a =>
            ({ aliasHash := a.aliasInfo.aliasHash, accountPubKey := a.aliasInfo.address,
               nonce := a.aliasInfo.nonce } : AccountDao))) db)) := by
  have hbody : ∀ file, ienv.getAccountDataFile ienv.chainId = some file →
      syncStateFromInitFiles ienv trees db = syncInitBody ienv trees db file := by
    intro file hfile
    unfold syncStateFromInitFiles
    rw [hfile]
  refine ⟨?_, ?_, ?_, ?_, ?_⟩
  · intro hfile
    unfold syncStateFromInitFiles
    rw [hfile]
  · intro file hfile hacc
    rw [hbody file hfile]
    unfold syncInitBody
    rw [if_pos hacc]
  · intro file hfile hroots
    rw [hbody file hfile]
    unfold syncInitBody
    by_cases hacc : ienv.readAccountTreeData file = []
    · rw [if_pos hacc]
    · rw [if_neg hacc, if_pos hroots]
  · intro file hfile hacc hroots hmis
    rw [hbody file hfile]
    unfold syncInitBody
    rw [if_neg hacc, if_neg hroots]
    by_cases h1 : (ienv.getInitRoots ienv.chainId).1 ≠
        (ienv.populateDataAndRootsTrees (ienv.readAccountTreeData file) trees).2.1
    · rw [if_pos h1]
      rfl
    · rw [if_neg h1]
      by_cases h2 : (ienv.getInitRoots ienv.chainId).2.2 ≠
          (ienv.populateDataAndRootsTrees (ienv.readAccountTreeData file) trees).2.2
      · rw [if_pos h2]
        rfl
      · rw [if_neg h2]
        have h3 : (ienv.getInitRoots ienv.chainId).2.1 ≠
            (ienv.populateNullTree (ienv.readAccountTreeData file)
              (ienv.populateDataAndRootsTrees (ienv.readAccountTreeData file) trees).1).2 := by
          rcases hmis with h | h | h
          · exact absurd h h1
          · exact absurd h h2
          · exact h
        rw [if_pos h3]
        rfl
  · intro file hfile hacc hroots heq1 heq2 heq3
    rw [hbody file hfile]
    unfold syncInitBody
    rw [if_neg hacc, if_neg hroots, if_neg (not_not_intro heq1),
      if_neg (not_not_intro heq2), if_neg (not_not_intro heq3)]

/-- Witness for C8: `ienvOk` populates matching roots and persists the one
derived account row; `ienvBad` computes a wrong data root and fails. -/
theorem syncStateFromInitFiles_behavior_witness :
    syncStateFromInitFiles ienvOk emptyTrees emptyDb =
      .ok (emptyTrees,
        addAccounts [{ aliasHash := [1], accountPubKey := [2], nonce := 3 }] emptyDb) ∧
    isOkE (syncStateFromInitFiles ienvBad emptyTrees emptyDb) = false := by
  constructor
  · exact (syncStateFromInitFiles_behavior ienvOk emptyTrees emptyDb).2.2.2.2 0
      (by decide) (by decide) (by decide) (by decide) (by decide) (by decide)
  · exact (syncStateFromInitFiles_behavior ienvBad emptyTrees emptyDb).2.2.2.1 0
      (by decide) (by decide) (by decide) (by decide)

/-! ## Relational-side idempotence of update-dbs (for C4) -/

theorem list_map_self {α : Type} (f : α → α) :
    ∀ (l : List α), (∀ x ∈ l, f x = x) → l.map f = l := by
  intro l
  induction l with
  | nil => intro _; rfl
  | cons a rest ih =>
    intro h
    rw [List.map_cons, h a (List.mem_cons_self _ _),
      ih (fun x hx => h x (List.mem_cons_of_mem _ hx))]

theorem claimDao_eta_claimed {c : ClaimDao} {t : Int} (h : c.claimed = some t) :
    ({ c with claimed := some t } : ClaimDao) = c := by
  cases c
  simp_all

theorem claimDao_eta_result {c : ClaimDao} {rid : Nat}
    (h : c.interactionResultRollupId = some rid) :
    ({ c with interactionResultRollupId := some rid } : ClaimDao) = c := by
  cases c
  simp_all

theorem txDao_eta_mined {tx : TxDao} {m : Int} (h : tx.mined = some m) :
    ({ tx with mined := some m } : TxDao) = tx := by
  cases tx
  simp_all

theorem confirmClaimed_noop {X : Buffer} {t' : Int} {db : RollupDbState}
    (h : allClaimed db.claims X t') : confirmClaimed X t' db = db := by
  unfold confirmClaimed
  have hmap : db.claims.map (fun c =>
      if c.nullifier = X then { c with claimed := some t' } else c) = db.claims := by
    refine list_map_self _ _ (fun c hc => ?_)
    by_cases hcx : c.nullifier = X
    · rw [if_pos hcx]
      exact claimDao_eta_claimed (h c hc hcx)
    · rw [if_neg hcx]
  rw [hmap]

theorem updateClaims_noop {nonce rid : Nat} {db : RollupDbState}
    (h : allResult db.claims nonce rid) : updateClaimsWithResultRollupId nonce rid db = db := by
  unfold updateClaimsWithResultRollupId
  have hmap : db.claims.map (fun c => if c.interactionNonce = (nonce : Int)
      then { c with interactionResultRollupId := some rid } else c) = db.claims := by
    refine list_map_self _ _ (fun c hc => ?_)
    by_cases hcx : c.interactionNonce = (nonce : Int)
    · rw [if_pos hcx]
      exact claimDao_eta_result (h c hc hcx)
    · rw [if_neg hcx]
  rw [hmap]

theorem addClaim_of_present (c : ClaimDao) (db : RollupDbState)
    (h : hasId db.claims c.id = true) : addClaim c db = db := by
  unfold addClaim
  rw [h]
  rfl

theorem hasId_addClaim_self (c : ClaimDao) (db : RollupDbState) :
    hasId (addClaim c db).claims c.id = true := by
  unfold addClaim
  split
  · assumption
  · show hasId (db.claims ++ [c]) c.id = true
    unfold hasId
    rw [List.any_append]
    have h2 : List.any [c] (fun x => x.id == c.id) = true := by simp
    rw [h2, Bool.or_true]

theorem hasId_mono_addClaim (c : ClaimDao) (db : RollupDbState) (n : Nat)
    (h : hasId db.claims n = true) : hasId (addClaim c db).claims n = true := by
  unfold addClaim
  split
  · exact h
  · show hasId (db.claims ++ [c]) n = true
    unfold hasId at h ⊢
    rw [List.any_append, h, Bool.true_or]

theorem hasId_map (f : ClaimDao → ClaimDao) (hid : ∀ c, (f c).id = c.id) :
    ∀ (l : List ClaimDao) (n : Nat), hasId (l.map f) n = hasId l n := by
  intro l n
  induction l with
  | nil => rfl
  | cons c rest ih =>
    show ((f c).id == n || hasId (rest.map f) n) = (c.id == n || hasId rest n)
    rw [hid, ih]

theorem hasId_confirmClaimed (X : Buffer) (t' : Int) (db : RollupDbState) (n : Nat) :
    hasId (confirmClaimed X t' db).claims n = hasId db.claims n := by
  refine hasId_map _ ?_ db.claims n
  intro c
  have h3 := congrArg ClaimDao.id (claimCore_confirmClaimed_fun X t' c)
  exact h3

theorem hasId_updateClaims (nonce rid : Nat) (db : RollupDbState) (n : Nat) :
    hasId (updateClaimsWithResultRollupId nonce rid db).claims n = hasId db.claims n := by
  refine hasId_map _ ?_ db.claims n
  intro c
  have h3 := congrArg ClaimDao.id (claimCore_updateClaims_fun nonce rid c)
  exact h3

theorem hasId_mono_processInnerStep (env : Env) (rollup : RollupProofData)
    (offchain : List Buffer) (created now : Int) (p : InnerProofData) (i oc : Nat)
    (db : RollupDbState) (n : Nat) (h : hasId db.claims n = true) :
    hasId (processInnerStep env rollup offchain created now p i oc db).claims n = true := by
  unfold processInnerStep
  split
  · exact hasId_mono_addClaim _ _ _ h
  · split
    · rw [hasId_confirmClaimed]
      exact h
    · exact h

theorem hasId_mono_processInner (env : Env) (rollup : RollupProofData)
    (offchain : List Buffer) (created now : Int) :
    ∀ (l : List InnerProofData) (i0 oc : Nat) (db : RollupDbState) (n : Nat),
      hasId db.claims n = true →
      hasId (processInner env rollup offchain created now l i0 oc db).claims n = true := by
  intro l
  induction l with
  | nil => intro i0 oc db n h; exact h
  | cons q rest ih =>
    intro i0 oc db n h
    rw [processInner_cons]
    by_cases hq : q.isPadding
    · rw [if_pos hq]
      exact ih (i0 + 1) oc db n h
    · rw [if_neg hq]
      exact ih (i0 + 1) (oc + 1) _ n
        (hasId_mono_processInnerStep env rollup offchain created now q i0 oc db n h)

theorem hasId_interactionLoop (rid : Nat) :
    ∀ (notes : List DefiInteractionNote) (db : RollupDbState) (n : Nat),
      hasId (interactionLoop rid notes db).claims n = hasId db.claims n := by
  intro notes
  induction notes with
  | nil => intro db n; rfl
  | cons note rest ih =>
    intro db n
    show hasId (interactionLoop rid rest _).claims n = _
    rw [ih, hasId_updateClaims]

theorem processInner_hasId (env : Env) (rollup : RollupProofData) (offchain : List Buffer)
    (created now : Int) :
    ∀ (l : List InnerProofData) (k i0 oc : Nat) (db : RollupDbState) (p : InnerProofData),
      l.get? k = some p → p.isPadding = false → p.proofId = ProofId.DEFI_DEPOSIT →
      hasId (processInner env rollup offchain created now l i0 oc db).claims
        (rollup.dataStartIndex + (i0 + k) * 2) = true := by
  intro l
  induction l with
  | nil => intro k i0 oc db p hk; cases hk
  | cons q rest ih =>
    intro k i0 oc db p hk hpad hdep
    cases k with
    | zero =>
      injection hk with hqp
      subst hqp
      rw [processInner_cons, if_neg (by rw [hpad]; exact Bool.false_ne_true)]
      simp only [Nat.add_zero]
      refine hasId_mono_processInner env rollup offchain created now rest (i0 + 1) (oc + 1)
        _ _ ?_
      unfold processInnerStep
      rw [if_pos hdep]
      have h5 := hasId_addClaim_self (mkClaimDao env rollup offchain q i0 oc now) db
      rwa [mkClaimDao_id] at h5
    | succ k' =>
      have hk' : rest.get? k' = some p := hk
      rw [processInner_cons]
      rw [show i0 + (k' + 1) = i0 + 1 + k' by omega]
      by_cases hq : q.isPadding
      · rw [if_pos hq]
        exact ih k' (i0 + 1) oc db p hk' hpad hdep
      · rw [if_neg hq]
        exact ih k' (i0 + 1) (oc + 1) _ p hk' hpad hdep

theorem mkClaimDao_nullifier (env : Env) (rollup : RollupProofData) (offchain : List Buffer)
    (q : InnerProofData) (i oc : Nat) (now : Int) :
    (mkClaimDao env rollup offchain q i oc now).nullifier =
      claimNullifierOf env rollup offchain q i oc := rfl

theorem allClaimed_confirmClaimed (X : Buffer) (t' : Int) {db : RollupDbState} {Y : Buffer}
    (h : allClaimed db.claims Y t') : allClaimed (confirmClaimed X t' db).claims Y t' := by
  intro c hc hcy
  have hc2 : c ∈ db.claims.map (fun c =>
      if c.nullifier = X then { c with claimed := some t' } else c) := hc
  obtain ⟨c0, hc0, rfl⟩ := List.mem_map.mp hc2
  by_cases hx : c0.nullifier = X
  · rw [if_pos hx]
  · rw [if_neg hx] at hcy ⊢
    exact h c0 hc0 hcy

theorem allClaimed_self (X : Buffer) (t' : Int) (db : RollupDbState) :
    allClaimed (confirmClaimed X t' db).claims X t' := by
  intro c hc hcx
  have hc2 : c ∈ db.claims.map (fun c =>
      if c.nullifier = X then { c with claimed := some t' } else c) := hc
  obtain ⟨c0, hc0, rfl⟩ := List.mem_map.mp hc2
  by_cases hx : c0.nullifier = X
  · rw [if_pos hx]
  · rw [if_neg hx] at hcx ⊢
    exact absurd hcx hx

theorem allClaimed_updateClaims (nonce rid : Nat) {db : RollupDbState} {X : Buffer} {t' : Int}
    (h : allClaimed db.claims X t') :
    allClaimed (updateClaimsWithResultRollupId nonce rid db).claims X t' := by
  intro c hc hcy
  have hc2 : c ∈ db.claims.map (fun c => if c.interactionNonce = (nonce : Int)
      then { c with interactionResultRollupId := some rid } else c) := hc
  obtain ⟨c0, hc0, rfl⟩ := List.mem_map.mp hc2
  by_cases hx : c0.interactionNonce = (nonce : Int)
  · rw [if_pos hx] at hcy ⊢
    exact h c0 hc0 hcy
  · rw [if_neg hx] at hcy ⊢
    exact h c0 hc0 hcy

theorem allClaimed_addClaim (c : ClaimDao) {db : RollupDbState} {X : Buffer} {t' : Int}
    (h : allClaimed db.claims X t') (hcn : c.nullifier ≠ X) :
    allClaimed (addClaim c db).claims X t' := by
  unfold addClaim
  split
  · exact h
  · intro c' hc' hcy
    rcases List.mem_append.mp hc' with h' | h'
    · exact h c' h' hcy
    · have hcc : c' = c := List.mem_singleton.mp h'
      subst hcc
      exact absurd hcy hcn

theorem allClaimed_processInnerStep (env : Env) (rollup : RollupProofData)
    (offchain : List Buffer) (created now : Int) (q : InnerProofData) (i oc : Nat)
    {db : RollupDbState} {X : Buffer}
    (hfr : (mkClaimDao env rollup offchain q i oc now).nullifier ≠ X)
    (h : allClaimed db.claims X created) :
    allClaimed (processInnerStep env rollup offchain created now q i oc db).claims
      X created := by
  unfold processInnerStep
  split
  · exact allClaimed_addClaim _ h hfr
  · split
    · exact allClaimed_confirmClaimed _ _ h
    · exact h

theorem allClaimed_processInner (env : Env) (rollup : RollupProofData) (offchain : List Buffer)
    (created now : Int) :
    ∀ (l : List InnerProofData) (i0 oc : Nat) (db : RollupDbState) (X : Buffer),
      (∀ (i' oc' : Nat) (q : InnerProofData),
        claimNullifierOf env rollup offchain q i' oc' ≠ X) →
      allClaimed db.claims X created →
      allClaimed (processInner env rollup offchain created now l i0 oc db).claims X created := by
  intro l
  induction l with
  | nil => intro i0 oc db X _ h; exact h
  | cons q rest ih =>
    intro i0 oc db X hfr h
    rw [processInner_cons]
    by_cases hq : q.isPadding
    · rw [if_pos hq]
      exact ih (i0 + 1) oc db X hfr h
    · rw [if_neg hq]
      refine ih (i0 + 1) (oc + 1) _ X hfr ?_
      refine allClaimed_processInnerStep env rollup offchain created now q i0 oc ?_ h
      rw [mkClaimDao_nullifier]
      exact hfr i0 oc q

theorem processInner_allClaimed (env : Env) (rollup : RollupProofData) (offchain : List Buffer)
    (created now : Int) :
    ∀ (l : List InnerProofData) (k i0 oc : Nat) (db : RollupDbState) (p : InnerProofData),
      l.get? k = some p → p.isPadding = false → p.proofId = ProofId.DEFI_CLAIM →
      (∀ (i' oc' : Nat) (q : InnerProofData),
        claimNullifierOf env rollup offchain q i' oc' ≠ p.nullifier1) →
      allClaimed (processInner env rollup offchain created now l i0 oc db).claims
        p.nullifier1 created := by
  intro l
  induction l with
  | nil => intro k i0 oc db p hk; cases hk
  | cons q rest ih =>
    intro k i0 oc db p hk hpad hcl hfr
    cases k with
    | zero =>
      injection hk with hqp
      subst hqp
      rw [processInner_cons, if_neg (by rw [hpad]; exact Bool.false_ne_true)]
      refine allClaimed_processInner env rollup offchain created now rest (i0 + 1) (oc + 1)
        _ _ hfr ?_
      unfold processInnerStep
      rw [if_neg (by rw [hcl]; decide), if_pos hcl]
      exact allClaimed_self _ _ db
    | succ k' =>
      have hk' : rest.get? k' = some p := hk
      rw [processInner_cons]
      by_cases hq : q.isPadding
      · rw [if_pos hq]
        exact ih k' (i0 + 1) oc db p hk' hpad hcl hfr
      · rw [if_neg hq]
        exact ih k' (i0 + 1) (oc + 1) _ p hk' hpad hcl hfr

theorem allClaimed_interactionLoop (rid : Nat) :
    ∀ (notes : List DefiInteractionNote) (db : RollupDbState) (X : Buffer) (t' : Int),
      allClaimed db.claims X t' → allClaimed (interactionLoop rid notes db).claims X t' := by
  intro notes
  induction notes with
  | nil => intro db X t' h; exact h
  | cons note rest ih =>
    intro db X t' h
    exact ih _ X t' (allClaimed_updateClaims note.nonce rid h)

theorem allResult_self (nonce rid : Nat) (db : RollupDbState) :
    allResult (updateClaimsWithResultRollupId nonce rid db).claims nonce rid := by
  intro c hc hcx
  have hc2 : c ∈ db.claims.map (fun c => if c.interactionNonce = (nonce : Int)
      then { c with interactionResultRollupId := some rid } else c) := hc
  obtain ⟨c0, hc0, rfl⟩ := List.mem_map.mp hc2
  by_cases hx : c0.interactionNonce = (nonce : Int)
  · rw [if_pos hx]
  · rw [if_neg hx] at hcx ⊢
    exact absurd hcx hx

theorem allResult_updateClaims (nonce' : Nat) {nonce rid : Nat} {db : RollupDbState}
    (h : allResult db.claims nonce rid) :
    allResult (updateClaimsWithResultRollupId nonce' rid db).claims nonce rid := by
  intro c hc hcx
  have hc2 : c ∈ db.claims.map (fun c => if c.interactionNonce = (nonce' : Int)
      then { c with interactionResultRollupId := some rid } else c) := hc
  obtain ⟨c0, hc0, rfl⟩ := List.mem_map.mp hc2
  by_cases hx : c0.interactionNonce = (nonce' : Int)
  · rw [if_pos hx]
  · rw [if_neg hx] at hcx ⊢
    exact h c0 hc0 hcx

theorem allResult_interactionLoop (rid : Nat) :
    ∀ (notes : List DefiInteractionNote) (db : RollupDbState) (nonce : Nat),
      allResult db.claims nonce rid →
      allResult (interactionLoop rid notes db).claims nonce rid := by
  intro notes
  induction notes with
  | nil => intro db nonce h; exact h
  | cons note rest ih =>
    intro db nonce h
    exact ih _ nonce (allResult_updateClaims note.nonce h)

theorem interactionLoop_allResult (rid : Nat) :
    ∀ (notes : List DefiInteractionNote) (db : RollupDbState) (note : DefiInteractionNote),
      note ∈ notes → allResult (interactionLoop rid notes db).claims note.nonce rid := by
  intro notes
  induction notes with
  | nil => intro db note hmem; cases hmem
  | cons n1 rest ih =>
    intro db note hmem
    rcases List.mem_cons.mp hmem with h | h
    · subst h
      exact allResult_interactionLoop rid rest _ note.nonce (allResult_self note.nonce rid db)
    · exact ih _ note h

theorem interactionLoop_noop (rid : Nat) :
    ∀ (notes : List DefiInteractionNote) (db : RollupDbState),
      (∀ note ∈ notes, allResult db.claims note.nonce rid) →
      interactionLoop rid notes db = db := by
  intro notes
  induction notes with
  | nil => intro db _; rfl
  | cons note rest ih =>
    intro db h
    show interactionLoop rid rest (updateClaimsWithResultRollupId note.nonce rid db) = db
    rw [updateClaims_noop (h note (List.mem_cons_self _ _))]
    exact ih db (fun n hn => h n (List.mem_cons_of_mem _ hn))

theorem processInnerStep_noop (env : Env) (rollup : RollupProofData) (offchain : List Buffer)
    (created now : Int) (p : InnerProofData) (i oc : Nat) (db : RollupDbState)
    (hdep : p.proofId = ProofId.DEFI_DEPOSIT →
      hasId db.claims (rollup.dataStartIndex + i * 2) = true)
    (hcl : p.proofId = ProofId.DEFI_CLAIM → allClaimed db.claims p.nullifier1 created) :
    processInnerStep env rollup offchain created now p i oc db = db := by
  unfold processInnerStep
  by_cases h1 : p.proofId = ProofId.DEFI_DEPOSIT
  · rw [if_pos h1]
    refine addClaim_of_present _ _ ?_
    rw [mkClaimDao_id]
    exact hdep h1
  · rw [if_neg h1]
    by_cases h2 : p.proofId = ProofId.DEFI_CLAIM
    · rw [if_pos h2]
      exact confirmClaimed_noop (hcl h2)
    · rw [if_neg h2]

theorem processInner_noop (env : Env) (rollup : RollupProofData) (offchain : List Buffer)
    (created now : Int) :
    ∀ (l : List InnerProofData) (i0 oc : Nat) (db : RollupDbState),
      (∀ k p, l.get? k = some p → p.isPadding = false →
        (p.proofId = ProofId.DEFI_DEPOSIT →
          hasId db.claims (rollup.dataStartIndex + (i0 + k) * 2) = true) ∧
        (p.proofId = ProofId.DEFI_CLAIM → allClaimed db.claims p.nullifier1 created)) →
      processInner env rollup offchain created now l i0 oc db = db := by
  intro l
  induction l with
  | nil => intro i0 oc db _; rfl
  | cons q rest ih =>
    intro i0 oc db hready
    rw [processInner_cons]
    by_cases hq : q.isPadding
    · rw [if_pos hq]
      refine ih (i0 + 1) oc db (fun k p hk hpad => ?_)
      have h6 := hready (k + 1) p hk hpad
      rwa [show i0 + (k + 1) = i0 + 1 + k by omega] at h6
    · rw [if_neg hq]
      have h0 := hready 0 q rfl (Bool.eq_false_iff.mpr hq)
      have hstep : processInnerStep env rollup offchain created now q i0 oc db = db := by
        refine processInnerStep_noop env rollup offchain created now q i0 oc db ?_ h0.2
        intro hd
        have h7 := h0.1 hd
        simpa using h7
      rw [hstep]
      refine ih (i0 + 1) (oc + 1) db (fun k p hk hpad => ?_)
      have h6 := hready (k + 1) p hk hpad
      rwa [show i0 + (k + 1) = i0 + 1 + k by omega] at h6

theorem confirmOrAddDb_claims (env : Env) (rollup : RollupProofData) (offchain : List Buffer)
    (block : Block) (db : RollupDbState) :
    (confirmOrAddDb env rollup offchain block db).claims = db.claims := by
  unfold confirmOrAddDb
  split <;> rfl

theorem confirmMined_pending (env : Env) (db : RollupDbState) (id gasUsed gasPrice : Nat)
    (minedAt : Int) (ethTxHash : Buffer) (ir : List DefiInteractionNote) (txIds : List Buffer)
    (metrics : List AssetMetricsDao) :
    (confirmMined env db id gasUsed gasPrice minedAt ethTxHash ir txIds metrics).pendingProofs =
      db.pendingProofs := rfl

theorem storeMetricsRows_nil (rows : List AssetMetricsDao) : storeMetricsRows rows [] = rows := by
  simp [storeMetricsRows]

theorem getAssetMetricsF_nil (env : Env) (rollup : RollupProofData)
    (results : List DefiInteractionNote) (db : RollupDbState) (h : rollup.assetIds = []) :
    getAssetMetricsF env rollup results db = [] := by
  unfold getAssetMetricsF
  rw [h]
  rfl

theorem find_congr {α : Type} (p q : α → Bool) (h : ∀ x, p x = q x) :
    ∀ l : List α, l.find? p = l.find? q := by
  intro l
  induction l with
  | nil => rfl
  | cons a rest ih =>
    show cond (p a) (some a) (rest.find? p) = cond (q a) (some a) (rest.find? q)
    rw [h a, ih]

theorem find_map_eq {α β : Type} (g : α → β) (p : β → Bool) :
    ∀ l : List α, (l.map g).find? p = (l.find? (fun x => p (g x))).map g := by
  intro l
  induction l with
  | nil => rfl
  | cons a rest ih =>
    show cond (p (g a)) (some (g a)) ((rest.map g).find? p) =
      (cond (p (g a)) (some a) (rest.find? (fun x => p (g x)))).map g
    cases h : p (g a)
    · exact ih
    · rfl

theorem mem_mapWithIndex {α β : Type} (f : Nat → α → β) :
    ∀ (l : List α) (i : Nat) (x : β), x ∈ mapWithIndex f i l → ∃ j a, a ∈ l ∧ x = f j a := by
  intro l
  induction l with
  | nil => intro i x hx; cases hx
  | cons a rest ih =>
    intro i x hx
    rcases List.mem_cons.mp hx with h | h
    · exact ⟨i, a, List.mem_cons_self _ _, h⟩
    · obtain ⟨j, b, hb, hx2⟩ := ih (i + 1) x h
      exact ⟨j, b, List.mem_cons_of_mem _ hb, hx2⟩

theorem mem_of_get? {α : Type} : ∀ {l : List α} {k : Nat} {a : α}, l.get? k = some a → a ∈ l := by
  intro l
  induction l with
  | nil => intro k a h; cases h
  | cons b rest ih =>
    intro k a h
    cases k with
    | zero =>
      injection h with h2
      exact h2 ▸ List.mem_cons_self _ _
    | succ k' => exact List.mem_cons_of_mem _ (ih h)

theorem settleTx_id (minedAt : Int) (txIds : List Buffer) (tx : TxDao) :
    (settleTx minedAt txIds tx).id = tx.id := by
  unfold settleTx
  split <;> rfl

theorem settleRollupRow_proof_id (env : Env) (id gasUsed gasPrice : Nat) (minedAt : Int)
    (ethTxHash : Buffer) (ir : List DefiInteractionNote) (txIds : List Buffer)
    (metrics : List AssetMetricsDao) (r : RollupDao) :
    (settleRollupRow env id gasUsed gasPrice minedAt ethTxHash ir txIds metrics
      r).rollupProof.id = r.rollupProof.id := by
  unfold settleRollupRow
  split <;> rfl

theorem list_map_congr {α β : Type} (f g : α → β) :
    ∀ l : List α, (∀ x ∈ l, f x = g x) → l.map f = l.map g := by
  intro l
  induction l with
  | nil => intro _; rfl
  | cons a rest ih =>
    intro h
    rw [List.map_cons, List.map_cons, h a (List.mem_cons_self _ _),
      ih (fun x hx => h x (List.mem_cons_of_mem _ hx))]

theorem getRollupProof_pending_some {db : RollupDbState} {hash : Buffer} {q : RollupProofDao}
    (hp : db.pendingProofs.find? (fun p => p.id == hash) = some q) :
    getRollupProof db hash = some q := by
  unfold getRollupProof
  rw [hp]

theorem getRollupProof_pending_none {db : RollupDbState} {hash : Buffer}
    (hp : db.pendingProofs.find? (fun p => p.id == hash) = none) :
    getRollupProof db hash =
      (db.rollups.find? (fun r => r.rollupProof.id == hash)).map (fun r => r.rollupProof) := by
  unfold getRollupProof
  rw [hp]

theorem getRollupProof_none {db : RollupDbState} {hash : Buffer}
    (h : getRollupProof db hash = none) :
    db.pendingProofs.find? (fun p => p.id == hash) = none ∧
    db.rollups.find? (fun r => r.rollupProof.id == hash) = none := by
  cases hp : db.pendingProofs.find? (fun p => p.id == hash) with
  | some q =>
    rw [getRollupProof_pending_some hp] at h
    cases h
  | none =>
    rw [getRollupProof_pending_none hp] at h
    refine ⟨rfl, ?_⟩
    cases hr : db.rollups.find? (fun r => r.rollupProof.id == hash) with
    | none => rfl
    | some r0 =>
      rw [hr] at h
      cases h

theorem confirmMined_rollups_mem (env : Env) (db : RollupDbState) (id gasUsed gasPrice : Nat)
    (minedAt : Int) (ethTxHash : Buffer) (ir : List DefiInteractionNote) (txIds : List Buffer)
    (metrics : List AssetMetricsDao) :
    ∀ r' ∈ (confirmMined env db id gasUsed gasPrice minedAt ethTxHash ir txIds
        metrics).rollups, r'.id = id →
      r'.mined = some minedAt ∧ r'.gasUsed = gasUsed ∧ r'.gasPrice = toBufferBE gasPrice 32 ∧
      r'.ethTxHash = ethTxHash ∧
      r'.interactionResult = joinBufs (ir.map env.serializeDefiNote) ∧
      r'.assetMetrics = metrics ∧
      (∀ tx' ∈ r'.rollupProof.txs, txIds.any (fun t => t == tx'.id) = true →
        tx'.mined = some minedAt) := by
  intro r' hr' hid
  have hr2 : r' ∈ db.rollups.map (settleRollupRow env id gasUsed gasPrice minedAt ethTxHash
    ir txIds metrics) := hr'
  obtain ⟨r, hr, rfl⟩ := List.mem_map.mp hr2
  unfold settleRollupRow at hid ⊢
  by_cases h : r.id = id
  · rw [if_pos h] at hid ⊢
    refine ⟨rfl, rfl, rfl, rfl, rfl, rfl, ?_⟩
    intro tx' htx' hany
    have htx2 : tx' ∈ r.rollupProof.txs.map (settleTx minedAt txIds) := htx'
    obtain ⟨tx, htx, rfl⟩ := List.mem_map.mp htx2
    rw [settleTx_id] at hany
    unfold settleTx
    rw [if_pos hany]
  · rw [if_neg h] at hid
    exact absurd hid h

theorem getRollupProof_confirmMined_found (env : Env) (db : RollupDbState)
    (id gasUsed gasPrice : Nat) (minedAt : Int) (ethTxHash : Buffer)
    (ir : List DefiInteractionNote) (txIds : List Buffer) (metrics : List AssetMetricsDao)
    (hash : Buffer) (rpf1 : RollupProofDao) (h1 : getRollupProof db hash = some rpf1) :
    ∃ rpf2, getRollupProof (confirmMined env db id gasUsed gasPrice minedAt ethTxHash ir
        txIds metrics) hash = some rpf2 ∧
      rpf2.txs.map (fun tx => tx.id) = rpf1.txs.map (fun tx => tx.id) := by
  cases hp : db.pendingProofs.find? (fun p => p.id == hash) with
  | some q =>
    rw [getRollupProof_pending_some hp] at h1
    injection h1 with hq
    refine ⟨q, ?_, by rw [hq]⟩
    refine getRollupProof_pending_some ?_
    rw [confirmMined_pending]
    exact hp
  | none =>
    rw [getRollupProof_pending_none hp] at h1
    cases hr : db.rollups.find? (fun r => r.rollupProof.id == hash) with
    | none =>
      rw [hr] at h1
      cases h1
    | some r0 =>
      rw [hr] at h1
      injection h1 with hq
      have hp2 : (confirmMined env db id gasUsed gasPrice minedAt ethTxHash ir txIds
          metrics).pendingProofs.find? (fun p => p.id == hash) = none := by
        rw [confirmMined_pending]
        exact hp
      refine ⟨(settleRollupRow env id gasUsed gasPrice minedAt ethTxHash ir txIds metrics
        r0).rollupProof, ?_, ?_⟩
      · rw [getRollupProof_pending_none hp2]
        have hrr : (confirmMined env db id gasUsed gasPrice minedAt ethTxHash ir txIds
            metrics).rollups = db.rollups.map (settleRollupRow env id gasUsed gasPrice
            minedAt ethTxHash ir txIds metrics) := rfl
        rw [hrr, find_map_eq]
        rw [find_congr _ (fun r => r.rollupProof.id == hash)
          (fun r => by rw [settleRollupRow_proof_id]) db.rollups]
        rw [hr]
        rfl
      · subst hq
        unfold settleRollupRow
        by_cases h : r0.id = id
        · rw [if_pos h]
          show (r0.rollupProof.txs.map (settleTx minedAt txIds)).map (fun tx => tx.id) = _
          rw [List.map_map]
          refine list_map_congr _ _ _ (fun tx _ => ?_)
          show (settleTx minedAt txIds tx).id = tx.id
          exact settleTx_id minedAt txIds tx
        · rw [if_neg h]

theorem addRollup_pending (dao : RollupDao) (db : RollupDbState) :
    (addRollup dao db).pendingProofs = db.pendingProofs := rfl

theorem addRollup_rollups (dao : RollupDao) (db : RollupDbState) :
    (addRollup dao db).rollups = dao :: db.rollups.filter (fun r => !(r.id == dao.id)) := rfl

theorem confirmMined_noop (env : Env) (db : RollupDbState) (id gasUsed gasPrice : Nat)
    (minedAt : Int) (ethTxHash : Buffer) (ir : List DefiInteractionNote) (txIds : List Buffer)
    (h : ∀ r ∈ db.rollups, r.id = id →
      r.mined = some minedAt ∧ r.gasUsed = gasUsed ∧ r.gasPrice = toBufferBE gasPrice 32 ∧
      r.ethTxHash = ethTxHash ∧
      r.interactionResult = joinBufs (ir.map env.serializeDefiNote) ∧
      r.assetMetrics = [] ∧
      (∀ tx ∈ r.rollupProof.txs, txIds.any (fun t => t == tx.id) = true →
        tx.mined = some minedAt)) :
    confirmMined env db id gasUsed gasPrice minedAt ethTxHash ir txIds [] = db := by
  unfold confirmMined
  rw [storeMetricsRows_nil]
  have hmap : db.rollups.map (settleRollupRow env id gasUsed gasPrice minedAt ethTxHash ir
      txIds []) = db.rollups := by
    refine list_map_self _ _ (fun r hr => ?_)
    unfold settleRollupRow
    by_cases hid : r.id = id
    · rw [if_pos hid]
      obtain ⟨h1, h2, h3, h4, h5, h6, htx⟩ := h r hr hid
      have htxs : r.rollupProof.txs.map (settleTx minedAt txIds) = r.rollupProof.txs := by
        refine list_map_self _ _ (fun tx htx2 => ?_)
        unfold settleTx
        by_cases hc : txIds.any (fun t => t == tx.id) = true
        · rw [if_pos hc]
          exact txDao_eta_mined (htx tx htx2 hc)
        · rw [if_neg hc]
      rw [htxs, ← h1, ← h2, ← h3, ← h4, ← h5, ← h6]
    · rw [if_neg hid]
  rw [hmap]

theorem find_cons_pos {α : Type} (p : α → Bool) (a : α) (l : List α) (h : p a = true) :
    (a :: l).find? p = some a := by
  show cond (p a) (some a) (l.find? p) = some a
  rw [h]
  rfl

theorem confirmOrAddDb_found (env : Env) (rollup : RollupProofData) (offchain : List Buffer)
    (block : Block) (db : RollupDbState) (rpf : RollupProofDao)
    (h : getRollupProof db rollup.rollupHash = some rpf) :
    confirmOrAddDb env rollup offchain block db =
      confirmMined env db rollup.rollupId block.gasUsed block.gasPrice block.created
        block.txHash block.interactionResult (rpf.txs.map (fun tx => tx.id))
        (getAssetMetricsF env rollup block.interactionResult db) := by
  unfold confirmOrAddDb
  rw [h]

theorem confirmOrAddDb_notfound (env : Env) (rollup : RollupProofData) (offchain : List Buffer)
    (block : Block) (db : RollupDbState)
    (h : getRollupProof db rollup.rollupHash = none) :
    confirmOrAddDb env rollup offchain block db =
      addRollup (mkRollupDao env rollup offchain block
        (getAssetMetricsF env rollup block.interactionResult db)) db := by
  unfold confirmOrAddDb
  rw [h]

theorem confirmOrAddDb_idem (env : Env) (rollup : RollupProofData) (offchain : List Buffer)
    (block : Block) (db : RollupDbState) (hassets : rollup.assetIds = []) :
    confirmOrAddDb env rollup offchain block (confirmOrAddDb env rollup offchain block db) =
      confirmOrAddDb env rollup offchain block db := by
  have hm1 : getAssetMetricsF env rollup block.interactionResult db = [] :=
    getAssetMetricsF_nil env rollup block.interactionResult db hassets
  cases hfound : getRollupProof db rollup.rollupHash with
  | some rpf1 =>
    have hdb1 : confirmOrAddDb env rollup offchain block db =
        confirmMined env db rollup.rollupId block.gasUsed block.gasPrice block.created
          block.txHash block.interactionResult (rpf1.txs.map (fun tx => tx.id)) [] := by
      rw [confirmOrAddDb_found env rollup offchain block db rpf1 hfound, hm1]
    obtain ⟨rpf2, hfound2, hids⟩ := getRollupProof_confirmMined_found env db rollup.rollupId
      block.gasUsed block.gasPrice block.created block.txHash block.interactionResult
      (rpf1.txs.map (fun tx => tx.id)) [] rollup.rollupHash rpf1 hfound
    rw [hdb1]
    rw [confirmOrAddDb_found env rollup offchain block _ rpf2 hfound2,
      getAssetMetricsF_nil env rollup block.interactionResult _ hassets, hids]
    exact confirmMined_noop env _ rollup.rollupId block.gasUsed block.gasPrice block.created
      block.txHash block.interactionResult (rpf1.txs.map (fun tx => tx.id))
      (confirmMined_rollups_mem env db rollup.rollupId block.gasUsed block.gasPrice
        block.created block.txHash block.interactionResult
        (rpf1.txs.map (fun tx => tx.id)) [])
  | none =>
    have hdb1 : confirmOrAddDb env rollup offchain block db =
        addRollup (mkRollupDao env rollup offchain block []) db := by
      rw [confirmOrAddDb_notfound env rollup offchain block db hfound, hm1]
    obtain ⟨hpn, hrn⟩ := getRollupProof_none hfound
    have hpend2 : (addRollup (mkRollupDao env rollup offchain block []) db).pendingProofs.find?
        (fun p => p.id == rollup.rollupHash) = none := by
      rw [addRollup_pending]
      exact hpn
    have hfind2 : getRollupProof (addRollup (mkRollupDao env rollup offchain block []) db)
        rollup.rollupHash = some (mkRollupDao env rollup offchain block []).rollupProof := by
      rw [getRollupProof_pending_none hpend2, addRollup_rollups]
      have hcond : ((fun r => r.rollupProof.id == rollup.rollupHash)
          (mkRollupDao env rollup offchain block [])) = true := by
        show (rollup.rollupHash == rollup.rollupHash) = true
        exact beq_self_eq_true _
      rw [find_cons_pos (fun r => r.rollupProof.id == rollup.rollupHash)
        (mkRollupDao env rollup offchain block [])
        (db.rollups.filter (fun r => !(r.id == (mkRollupDao env rollup offchain block []).id)))
        hcond]
      rfl
    rw [hdb1]
    rw [confirmOrAddDb_found env rollup offchain block _ _ hfind2,
      getAssetMetricsF_nil env rollup block.interactionResult _ hassets]
    refine confirmMined_noop env _ rollup.rollupId block.gasUsed block.gasPrice block.created
      block.txHash block.interactionResult _ ?_
    intro r hr hid
    rw [addRollup_rollups] at hr
    rcases List.mem_cons.mp hr with hcase | hcase
    · subst hcase
      refine ⟨rfl, rfl, rfl, rfl, rfl, rfl, ?_⟩
      intro tx htx _
      have htx2 : tx ∈ mapWithIndex (fun i p => innerProofDataToTxDao env p
          (offchain.getD i []) block.created (env.getTxType p)) 0
          (rollup.innerProofData.filter (fun tx => !tx.isPadding)) := htx
      obtain ⟨j, a, _, rfl⟩ := mem_mapWithIndex _ _ _ _ htx2
      rfl
    · exfalso
      have h2 := (List.mem_filter.mp hcase).2
      have h3 : ¬(r.id == (mkRollupDao env rollup offchain block []).id) = true := by
        simpa using h2
      exact h3 (by rw [show (mkRollupDao env rollup offchain block []).id = rollup.rollupId
        from rfl, ← hid]; exact beq_self_eq_true _)

/-! ## Tree-side idempotence of update-dbs (for C4) -/

theorem Trees.commitAll_of_stagedEmpty {t : Trees} (h : ∀ tag, (t.get tag).staged = []) :
    t.commitAll = t := by
  cases t with
  | mk d n r f =>
    have hd : d.staged = [] := h .DATA
    have hn : n.staged = [] := h .NULL
    have hr : r.staged = [] := h .ROOT
    have hf : f.staged = [] := h .DEFI
    show Trees.mk d.commit n.commit r.commit f.commit = Trees.mk d n r f
    rw [Tree.commit_of_staged_empty hd, Tree.commit_of_staged_empty hn,
      Tree.commit_of_staged_empty hr, Tree.commit_of_staged_empty hf]

theorem Trees.rollbackAll_of_stagedEmpty {t : Trees} (h : ∀ tag, (t.get tag).staged = []) :
    t.rollbackAll = t := by
  cases t with
  | mk d n r f =>
    have hd : d.staged = [] := h .DATA
    have hn : n.staged = [] := h .NULL
    have hr : r.staged = [] := h .ROOT
    have hf : f.staged = [] := h .DEFI
    show Trees.mk d.rollback n.rollback r.rollback f.rollback = Trees.mk d n r f
    rw [Tree.rollback_of_staged_empty hd, Tree.rollback_of_staged_empty hn,
      Tree.rollback_of_staged_empty hr, Tree.rollback_of_staged_empty hf]

theorem addRollup_stagedEmpty (env : Env) (rp : RollupProofData) (t : Trees)
    (h : ∀ tag, (t.get tag).staged = []) :
    ∀ tag, ((addRollupToWorldState env rp t).get tag).staged = [] := by
  unfold addRollupToWorldState
  split
  · exact h
  · intro tag
    rw [Trees.get_commitAll]
    rfl

theorem updateTrees_stagedEmpty (env : Env) (rp : RollupProofData) (t : Trees) :
    ∀ tag, ((updateTrees env rp t).get tag).staged = [] := by
  unfold updateTrees
  split
  · intro tag
    rw [Trees.get_commitAll]
    rfl
  · exact addRollup_stagedEmpty env rp _ (fun tag => by rw [Trees.get_rollbackAll]; rfl)

theorem getRootT_commitAll (env : Env) (t : Trees) (tag : TreeTag) :
    getRootT env t.commitAll tag = getRootT env t tag := by
  unfold getRootT
  rw [Trees.get_commitAll, Tree.view_commit]

theorem rootsMatch_commitAll (env : Env) (rp : RollupProofData) (t : Trees) :
    rootsMatch env rp t.commitAll ↔ rootsMatch env rp t := by
  unfold rootsMatch
  rw [getRootT_commitAll, getRootT_commitAll, getRootT_commitAll, getRootT_commitAll]

theorem addRollup_wrote_size (env : Env) (rp : RollupProofData) (t : Trees)
    (hguard : ¬ (t.get .DATA).size > rp.dataStartIndex) (hne : rp.innerProofData ≠ []) :
    ((addRollupToWorldState env rp t).get .DATA).size > rp.dataStartIndex := by
  obtain ⟨p, rest, hl⟩ : ∃ p rest, rp.innerProofData = p :: rest := by
    cases hcase : rp.innerProofData with
    | nil => exact absurd hcase hne
    | cons p rest => exact ⟨p, Exists.intro rest rfl⟩
  unfold addRollupToWorldState
  rw [if_neg hguard]
  rw [Trees.get_commitAll, Tree.size_commit]
  have hget : (applyDefiLoop (rp.rollupId * NUM_BRIDGE_CALLS_PER_BLOCK)
      rp.defiInteractionNotes 0
      ((applyInnerLoop rp.dataStartIndex rp.innerProofData 0 t).put .ROOT (rp.rollupId + 1)
        (getRootT env (applyInnerLoop rp.dataStartIndex rp.innerProofData 0 t) .DATA))).get
        .DATA =
      (applyInnerLoop rp.dataStartIndex rp.innerProofData 0 t).get .DATA := by
    rw [applyDefiLoop_get_other _ _ _ _ .DATA (by intro h; cases h)]
    rw [Trees.get_put_ne _ .ROOT .DATA _ _ (by intro h; cases h)]
  rw [hget]
  have hread := (applyInnerLoop_read rp.dataStartIndex rp.innerProofData 0 t 0 p
    (by rw [hl]; rfl)).2
  simp only [Nat.zero_add, Nat.add_zero] at hread
  have hsize := Tree.size_ge_of_read (t := (applyInnerLoop rp.dataStartIndex
    rp.innerProofData 0 t).get .DATA) hread
  omega

theorem updateTrees_idem (env : Env) (rp : RollupProofData) (t : Trees)
    (hne : rp.innerProofData ≠ []) :
    updateTrees env rp (updateTrees env rp t) = updateTrees env rp t := by
  have hse : ∀ tag, ((updateTrees env rp t).get tag).staged = [] :=
    updateTrees_stagedEmpty env rp t
  by_cases hm2 : rootsMatch env rp (updateTrees env rp t)
  · show (if rootsMatch env rp (updateTrees env rp t) then _ else _) = _
    rw [if_pos hm2]
    exact Trees.commitAll_of_stagedEmpty hse
  · show (if rootsMatch env rp (updateTrees env rp t) then _ else _) = _
    rw [if_neg hm2, Trees.rollbackAll_of_stagedEmpty hse]
    by_cases hm1 : rootsMatch env rp t
    · exfalso
      have h1 : updateTrees env rp t = t.commitAll := by
        unfold updateTrees
        rw [if_pos hm1]
      rw [h1] at hm2
      exact hm2 ((rootsMatch_commitAll env rp t).mpr hm1)
    · have h1 : updateTrees env rp t = addRollupToWorldState env rp t.rollbackAll := by
        unfold updateTrees
        rw [if_neg hm1]
      by_cases hg1 : (t.rollbackAll.get .DATA).size > rp.dataStartIndex
      · have h2 : updateTrees env rp t = t.rollbackAll := by
          rw [h1]
          unfold addRollupToWorldState
          rw [if_pos hg1]
        rw [h2]
        unfold addRollupToWorldState
        rw [if_pos hg1]
      · have hsz : ((updateTrees env rp t).get .DATA).size > rp.dataStartIndex := by
          rw [h1]
          exact addRollup_wrote_size env rp t.rollbackAll hg1 hne
        unfold addRollupToWorldState
        rw [if_pos hsz]

/-- Replaying `processDefiProofs` and `confirmOrAddRollupToDb` on the state
produced by a first run changes nothing, provided the block carries no asset
ids (otherwise asset-metrics rows re-accumulate) and no `DEFI_CLAIM` inner
proof spends a claim nullifier derivable from this very rollup's deposits. -/
theorem processDefi_confirm_idem (env : Env) (rollup : RollupProofData) (offchain : List Buffer)
    (block : Block) (created now1 now2 : Int) (results : List DefiInteractionNote)
    (db0 : RollupDbState) (hassets : rollup.assetIds = [])
    (hfresh : ∀ p ∈ rollup.innerProofData, p.proofId = ProofId.DEFI_CLAIM →
      ∀ (i' oc' : Nat) (q : InnerProofData),
        claimNullifierOf env rollup offchain q i' oc' ≠ p.nullifier1) :
    confirmOrAddDb env rollup offchain block
      (processDefiProofsDb env rollup offchain created now2 results
        (confirmOrAddDb env rollup offchain block
          (processDefiProofsDb env rollup offchain created now1 results db0))) =
      confirmOrAddDb env rollup offchain block
        (processDefiProofsDb env rollup offchain created now1 results db0) := by
  have hstep : processDefiProofsDb env rollup offchain created now2 results
      (confirmOrAddDb env rollup offchain block
        (processDefiProofsDb env rollup offchain created now1 results db0)) =
      confirmOrAddDb env rollup offchain block
        (processDefiProofsDb env rollup offchain created now1 results db0) := by
    have hclaims1 : (confirmOrAddDb env rollup offchain block
        (processDefiProofsDb env rollup offchain created now1 results db0)).claims =
        (processDefiProofsDb env rollup offchain created now1 results db0).claims :=
      confirmOrAddDb_claims env rollup offchain block _
    show interactionLoop rollup.rollupId results
      (processInner env rollup offchain created now2 rollup.innerProofData 0 0
        (confirmOrAddDb env rollup offchain block
          (processDefiProofsDb env rollup offchain created now1 results db0))) =
      confirmOrAddDb env rollup offchain block
        (processDefiProofsDb env rollup offchain created now1 results db0)
    have hpi : processInner env rollup offchain created now2 rollup.innerProofData 0 0
        (confirmOrAddDb env rollup offchain block
          (processDefiProofsDb env rollup offchain created now1 results db0)) =
        confirmOrAddDb env rollup offchain block
          (processDefiProofsDb env rollup offchain created now1 results db0) := by
      refine processInner_noop env rollup offchain created now2 rollup.innerProofData 0 0 _ ?_
      intro k p hk hpad
      constructor
      · intro hdep
        rw [hclaims1]
        show hasId (interactionLoop rollup.rollupId results
          (processInner env rollup offchain created now1 rollup.innerProofData 0 0
            db0)).claims (rollup.dataStartIndex + (0 + k) * 2) = true
        rw [hasId_interactionLoop]
        exact processInner_hasId env rollup offchain created now1 rollup.innerProofData
          k 0 0 db0 p hk hpad hdep
      · intro hcl
        have hfr := hfresh p (mem_of_get? hk) hcl
        rw [hclaims1]
        show allClaimed (interactionLoop rollup.rollupId results
          (processInner env rollup offchain created now1 rollup.innerProofData 0 0
            db0)).claims p.nullifier1 created
        exact allClaimed_interactionLoop rollup.rollupId results _ p.nullifier1 created
          (processInner_allClaimed env rollup offchain created now1 rollup.innerProofData
            k 0 0 db0 p hk hpad hcl hfr)
    rw [hpi]
    refine interactionLoop_noop rollup.rollupId results _ ?_
    intro note hnote
    rw [hclaims1]
    show allResult (interactionLoop rollup.rollupId results
      (processInner env rollup offchain created now1 rollup.innerProofData 0 0
        db0)).claims note.nonce rollup.rollupId
    exact interactionLoop_allResult rollup.rollupId results _ note hnote
  rw [hstep]
  exact confirmOrAddDb_idem env rollup offchain block _ hassets

/-- C4 (amended): replaying `updateDbs` on the same block is idempotent for
the trees (the second pass early-exits on the `get_size(DATA) >
dataStartIndex` guard, provided the rollup has at least one inner proof) and
for the relational store, provided additionally that the block carries no
asset ids (otherwise `getAssetMetrics` re-accumulates the cumulative rows)
and that no `DEFI_CLAIM` in the block spends a claim created by the block's
own deposits. -/
theorem updateDbs_idempotent (env : Env) (block : Block) (now1 now2 : Int) (s : WS)
    (hne : block.rollupProofData.innerProofData ≠ [])
    (hassets : block.rollupProofData.assetIds = [])
    (hfresh : ∀ p ∈ block.rollupProofData.innerProofData, p.proofId = ProofId.DEFI_CLAIM →
      ∀ (i' oc' : Nat) (q : InnerProofData),
        claimNullifierOf env block.rollupProofData block.offchainTxData q i' oc' ≠
          p.nullifier1) :
    (updateDbs env block now2 (updateDbs env block now1 s)).trees =
      (updateDbs env block now1 s).trees ∧
    (updateDbs env block now2 (updateDbs env block now1 s)).db =
      (updateDbs env block now1 s).db := by
  constructor
  · rw [updateDbs_trees env block now2, updateDbs_trees env block now1]
    exact updateTrees_idem env block.rollupProofData s.trees hne
  · rw [updateDbs_db env block now2, updateDbs_db env block now1]
    exact processDefi_confirm_idem env block.rollupProofData block.offchainTxData block
      block.created now1 now2 block.interactionResult s.db hassets hfresh

theorem updateDbs_idempotent_witness :
    ((mkBlockW (mkRpW [depositProofW] [] [3] [])).rollupProofData.innerProofData ≠ [] ∧
     (mkBlockW (mkRpW [depositProofW] [] [3] [])).rollupProofData.assetIds = []) ∧
    ((updateDbs envW (mkBlockW (mkRpW [depositProofW] [] [3] [])) 8
        (updateDbs envW (mkBlockW (mkRpW [depositProofW] [] [3] [])) 7 wsW)).trees =
      (updateDbs envW (mkBlockW (mkRpW [depositProofW] [] [3] [])) 7 wsW).trees ∧
     (updateDbs envW (mkBlockW (mkRpW [depositProofW] [] [3] [])) 8
        (updateDbs envW (mkBlockW (mkRpW [depositProofW] [] [3] [])) 7 wsW)).db =
      (updateDbs envW (mkBlockW (mkRpW [depositProofW] [] [3] [])) 7 wsW).db) :=
  ⟨⟨by decide, by decide⟩,
   updateDbs_idempotent envW (mkBlockW (mkRpW [depositProofW] [] [3] [])) 7 8 wsW
     (by decide) (by decide)
     (by
       intro p hmem hcl i' oc' q
       have hmem2 : p ∈ [depositProofW] := hmem
       rw [List.mem_singleton] at hmem2
       subst hmem2
       exact absurd hcl (by decide))⟩

/-- The unamended replay claim fails on the relational store: with a
non-empty asset-id list the second run of `updateDbs` re-accumulates the
asset-metrics rows, so the store after two runs differs from the store
after one. -/
theorem updateDbs_not_idempotent_with_assets :
    (updateDbs envW (mkBlockW (mkRpW [depositProofW] [] [3] [0])) 7
        (updateDbs envW (mkBlockW (mkRpW [depositProofW] [] [3] [0])) 7 wsW)).db ≠
      (updateDbs envW (mkBlockW (mkRpW [depositProofW] [] [3] [0])) 7 wsW).db := by
  decide

/-- C9: before any pipeline exists, `getNextPublishTime` does not fail: it
returns the default `RollupTimeouts` (no base timeout, empty bridge-timeout
map); `getTxPoolProfile` instead dereferences the missing pipeline (modelled
as `none`); with a pipeline both delegate to it. -/
theorem getNextPublishTime_defaults_without_pipeline :
    getNextPublishTime none = { baseTimeout := none, bridgeTimeouts := [] } ∧
    getTxPoolProfile none = none ∧
    ∀ p : RollupPipeline, getNextPublishTime (some p) = p.nextPublishTime ∧
      getTxPoolProfile (some p) = some p.txPoolProfile :=
  ⟨rfl, rfl, fun _ => ⟨rfl, rfl⟩⟩

end AztecWorldState
